import Mathlib

/-!
# led++ : a verification development

Shallow embedding of the library `led++` (`src/led++.cpp`, `src/led++.hpp`) and of the
command line tool (`src/util-led.cpp`).

Conventions of the embedding

* a text (`std::string`, the content of a sysfs attribute file, a command line argument) is a
  `List Char`;
* an input file stream is the text still to be read together with `eofbit` and `failbit`
  (`badbit`, an I/O error in the middle of a read, is outside the model: an attribute is
  either unreadable as a whole or delivers its whole content);
* formatted extraction follows libstdc++ in the classic "C" locale with the default format
  flags `skipws | dec`;
* `int` and `unsigned` are 32 bits wide and are carried as `Int` / `Nat` with explicit bounds;
* `getopt_long` is the one of the GNU C library, `std::stoi` converts with `strtol` in base 10;
* the sysfs tree is an explicit value (`sysfs`, `led_dir`, `attr_file`) that the accessors take
  and the mutators return.
-/

namespace ledpp

/-! ## Characters -/

/-- Whitespace of the classic "C" locale (`std::isspace`): space, `\t`, `\n`, `\v`, `\f`, `\r`. -/
def isspace (c : Char) : Bool :=
  c.toNat == 32 || (9 ≤ c.toNat && c.toNat ≤ 13)

/-- Decimal digit test used by the numeric extractors. -/
def isdigit (c : Char) : Bool :=
  48 ≤ c.toNat && c.toNat ≤ 57

/-- Value of a decimal digit character. -/
def digit_value (c : Char) : Nat :=
  c.toNat - 48

/-! ## Input streams (`std::ifstream`) -/

/-- State of a `std::ifstream`: unread text and the two state bits the code inspects. -/
structure ifstream where
  buf : List Char
  eofbit : Bool
  failbit : Bool
deriving DecidableEq, Repr

namespace ifstream

/-- Model of `s.good()`. -/
def good (s : ifstream) : Bool := !s.eofbit && !s.failbit

/-- Model of `s.fail()`. -/
def fail (s : ifstream) : Bool := s.failbit

/-- Model of `s.eof()`. -/
def eof (s : ifstream) : Bool := s.eofbit

/-- Model of `std::ifstream s (pathname)`: `none` is a file that cannot be opened for reading. -/
def ofFile : Option (List Char) → ifstream
  | none => { buf := [], eofbit := false, failbit := true }
  | some cs => { buf := cs, eofbit := false, failbit := false }

/-- Model of the `istream::sentry` of a formatted input function: on a good stream skip leading
whitespace; running into the end of the text sets `eofbit` and `failbit`; a stream that is
not good gets `failbit`. The boolean tells whether extraction may proceed. -/
def sentry (s : ifstream) : ifstream × Bool :=
  if s.good then
    let rest := s.buf.dropWhile isspace
    if rest.isEmpty then ({ buf := [], eofbit := true, failbit := true }, false)
    else ({ s with buf := rest }, true)
  else ({ s with failbit := true }, false)

/-- Model of `s >> name` for a `std::string`: after the sentry, the maximal run of
non-whitespace characters is extracted; reaching the end of the text sets `eofbit`,
extracting nothing sets `failbit`. If the sentry fails the string keeps its old value. -/
def extract_string (s : ifstream) (old : List Char) : ifstream × List Char :=
  match s.sentry with
  | (s1, false) => (s1, old)
  | (s1, true) =>
    let name := s1.buf.takeWhile (fun c => !isspace c)
    let rest := s1.buf.dropWhile (fun c => !isspace c)
    ({ buf := rest, eofbit := rest.isEmpty, failbit := name.isEmpty }, name)

/-- Magnitude denoted by a run of decimal digits, most significant first. -/
def digits_value (ds : List Char) : Nat :=
  ds.foldl (fun acc c => acc * 10 + digit_value c) 0

/-- The input field of an integer conversion in base 10: an optional sign followed by the
maximal run of decimal digits. Returns (negative, digits, unread text). -/
def num_field (buf : List Char) : Bool × List Char × List Char :=
  match buf with
  | [] => (false, [], [])
  | c :: t =>
    if c = '-' then (true, t.takeWhile isdigit, t.dropWhile isdigit)
    else if c = '+' then (false, t.takeWhile isdigit, t.dropWhile isdigit)
    else (false, (c :: t).takeWhile isdigit, (c :: t).dropWhile isdigit)

/-- Largest `unsigned` value. -/
def UINT_MAX : Nat := 4294967295

/-- Largest `int` value. -/
def INT_MAX : Int := 2147483647

/-- Smallest `int` value. -/
def INT_MIN : Int := -2147483648

/-- Model of `s >> value` for an `unsigned`: no digit gives `failbit` and stores 0; a magnitude
above `UINT_MAX` gives `failbit` and stores `UINT_MAX`; otherwise the magnitude is stored,
negated modulo `2^32` after a minus sign. Reaching the end of the text sets `eofbit`.
If the sentry fails the variable keeps its old value. -/
def extract_unsigned (s : ifstream) (old : Nat) : ifstream × Nat :=
  match s.sentry with
  | (s1, false) => (s1, old)
  | (s1, true) =>
    match num_field s1.buf with
    | (negative, ds, rest) =>
      if ds.isEmpty then ({ buf := rest, eofbit := rest.isEmpty, failbit := true }, 0)
      else if digits_value ds > UINT_MAX then
        ({ buf := rest, eofbit := rest.isEmpty, failbit := true }, UINT_MAX)
      else
        ({ buf := rest, eofbit := rest.isEmpty, failbit := false },
          if negative then (4294967296 - digits_value ds) % 4294967296 else digits_value ds)

/-- Model of `s >> value` for an `int`: no digit gives `failbit` and stores 0; a value outside
the range of `int` gives `failbit` and stores the nearest bound; otherwise the signed value is
stored. Reaching the end of the text sets `eofbit`. If the sentry fails the variable keeps
its old value. -/
def extract_int (s : ifstream) (old : Int) : ifstream × Int :=
  match s.sentry with
  | (s1, false) => (s1, old)
  | (s1, true) =>
    match num_field s1.buf with
    | (negative, ds, rest) =>
      let v : Int := if negative then -(digits_value ds : Int) else (digits_value ds : Int)
      if ds.isEmpty then ({ buf := rest, eofbit := rest.isEmpty, failbit := true }, 0)
      else if v < INT_MIN then ({ buf := rest, eofbit := rest.isEmpty, failbit := true }, INT_MIN)
      else if v > INT_MAX then ({ buf := rest, eofbit := rest.isEmpty, failbit := true }, INT_MAX)
      else ({ buf := rest, eofbit := rest.isEmpty, failbit := false }, v)

end ifstream

/-! ## Strings and sets of strings -/

/-- Model of `name.substr (pos, n)`. -/
def substr (name : List Char) (pos n : Nat) : List Char :=
  (name.drop pos).take n

/-- Model of `std::string::operator<` : lexicographic comparison of the character codes. -/
def string_less : List Char → List Char → Bool
  | [], [] => false
  | [], _ :: _ => true
  | _ :: _, [] => false
  | a :: as, b :: bs =>
    if a.toNat < b.toNat then true
    else if b.toNat < a.toNat then false
    else string_less as bs

/-- Model of `std::set<std::string>::emplace` on the sorted sequence of the elements of
the set: the new element is placed before the first greater element, and dropped when an
equal element is met. -/
def set_emplace (x : List Char) : List (List Char) → List (List Char)
  | [] => [x]
  | y :: ys =>
    if string_less x y then x :: y :: ys
    else if string_less y x then y :: set_emplace x ys
    else y :: ys

/-- The test `name.front() == '['  &&  name.back() == ']'`. -/
def is_bracketed (name : List Char) : Bool :=
  name.head? == some '[' && name.getLast? == some ']'

/-! ## `led::triggers` and `led::trigger` -/

/-- The loop `while (s.good())` of `led::triggers`, with the set built so far. The first
argument bounds the number of iterations; one more than the length of the unread text is
always enough, since every iteration but the last consumes a character. -/
def triggers_loop : Nat → ifstream → List (List Char) → List (List Char)
  | 0, _, trigger_set => trigger_set
  | fuel + 1, s, trigger_set =>
    if s.good then
      match s.extract_string [] with
      | (s1, name) =>
        if !s1.fail then
          let len := name.length
          let name1 :=
            if len ≥ 3 then
              if is_bracketed name then substr name 1 (len - 2) else name
            else name
          triggers_loop fuel s1 (set_emplace name1 trigger_set)
        else triggers_loop fuel s1 trigger_set
    else trigger_set

/-- Model of `led::triggers ()` on the state of the trigger attribute (`none`: the file cannot
be opened). The result is the sorted sequence of the elements of the returned set. -/
def triggers (file : Option (List Char)) : List (List Char) :=
  let s := ifstream.ofFile file
  triggers_loop (s.buf.length + 1) s []

/-- The loop `while (s.good())` of `led::trigger`; it is left with `break` at the first
bracketed name, and `active_trigger` stays empty otherwise. -/
def trigger_loop : Nat → ifstream → List Char
  | 0, _ => []
  | fuel + 1, s =>
    if s.good then
      match s.extract_string [] with
      | (s1, name) =>
        if !s1.fail then
          let len := name.length
          if len ≥ 3 then
            if is_bracketed name then substr name 1 (len - 2)
            else trigger_loop fuel s1
          else trigger_loop fuel s1
        else trigger_loop fuel s1
    else []

/-- Model of `led::trigger ()` on the state of the trigger attribute. -/
def trigger (file : Option (List Char)) : List Char :=
  let s := ifstream.ofFile file
  trigger_loop (s.buf.length + 1) s

/-! ## Reference notions used by the statements -/

/-- The whitespace-separated tokens of a text: its maximal runs of non-whitespace characters. -/
def tokens (content : List Char) : List (List Char) :=
  (content.splitOnP isspace).filter (fun t => !t.isEmpty)

/-- The name `x` of a token of the form `[x]` with `x` non-empty. -/
def bracket_name (t : List Char) : Option (List Char) :=
  match t with
  | [] => none
  | c :: r =>
    if c = '[' ∧ r.getLast? = some ']' ∧ r.dropLast ≠ [] then some r.dropLast else none

/-- The name of the first token of the form `[x]` in a list of tokens, the empty string if
there is none. -/
def active_entry : List (List Char) → List Char
  | [] => []
  | t :: ts =>
    match bracket_name t with
    | some x => x
    | none => active_entry ts

/-- The name a token contributes to the set of triggers: `x` for a token `[x]` with `x`
non-empty, the token itself otherwise. -/
def unwrap_token (t : List Char) : List Char :=
  match bracket_name t with
  | some x => x
  | none => t

/-- A token wrapped in square brackets: it opens with `[` and closes with another character `]`. -/
def is_wrapped (t : List Char) : Bool :=
  decide (t.length ≥ 2) && t.head? == some '[' && t.getLast? == some ']'

/-- A token with its brackets stripped when it is wrapped in square brackets. -/
def strip_wrapped (t : List Char) : List Char :=
  if is_wrapped t then (t.drop 1).dropLast else t

/-- The trigger names as the sentence on `triggers()` words them: the tokens of the content,
every token wrapped in square brackets stripped of the brackets. -/
def stated_trigger_names (content : List Char) : List (List Char) :=
  (tokens content).map strip_wrapped

/-! ## Attribute files and the accessors of `led` -/

/-- A sysfs attribute file: the text it holds, whether it can be opened and read, and whether
it can be opened for output and written. Writing replaces the text (a plain file). -/
structure attr_file where
  data : List Char
  readable : Bool
  writable : Bool
deriving DecidableEq, Repr

/-- What `std::ifstream s (pathname)` sees of an attribute file. -/
def attr_file.input (f : attr_file) : Option (List Char) :=
  if f.readable then some f.data else none

/-- The loop of `std::to_string` for an unsigned value: the digits are produced from the
least significant one. The first argument bounds the number of digits. -/
def to_string_loop : Nat → Nat → List Char → List Char
  | 0, _, acc => acc
  | fuel + 1, n, acc =>
    if n / 10 = 0 then Char.ofNat (48 + n % 10) :: acc
    else to_string_loop fuel (n / 10) (Char.ofNat (48 + n % 10) :: acc)

/-- Model of `std::to_string (value)` and of `ss << value` for an unsigned value: the decimal
digits without leading zeros. -/
def to_string (n : Nat) : List Char :=
  to_string_loop (n + 1) n []

/-- Model of `std::to_string (value)` and of `cout << value` for an `int`. -/
def to_string_int (v : Int) : List Char :=
  if v < 0 then '-' :: to_string v.natAbs else to_string v.toNat

/-- Model of `led::get_value`. -/
def get_value (file : attr_file) : Int :=
  let s := ifstream.ofFile file.input
  let r := if s.good then s.extract_int (-1) else (s, -1)
  if r.1.fail then -1 else r.2

/-- Model of `led::set_value`: the returned status and the file afterwards. -/
def set_value (file : attr_file) (value : List Char) : Int × attr_file :=
  if file.writable then (0, { file with data := value }) else (-1, file)

/-- The files of one device directory `/sys/class/leds/<name>`; `multi_index` is `none` when
that path does not exist. -/
structure led_dir where
  brightness : attr_file
  max_brightness : attr_file
  multi_intensity : attr_file
  trigger : attr_file
  multi_index : Option attr_file
deriving DecidableEq, Repr

/-- Model of `led::max_brightness ()`. -/
def max_brightness (d : led_dir) : Int := get_value d.max_brightness

/-- Model of `led::brightness ()`. -/
def brightness (d : led_dir) : Int := get_value d.brightness

/-- Model of `led::brightness (unsigned value)`: the status and the directory afterwards. -/
def set_brightness (d : led_dir) (value : Nat) : Int × led_dir :=
  let r := set_value d.brightness (to_string value)
  (r.1, { d with brightness := r.2 })

/-- Model of `led::trigger (const std::string& name)`. -/
def set_trigger (d : led_dir) (name : List Char) : Int × led_dir :=
  let r := set_value d.trigger name
  (r.1, { d with trigger := r.2 })

/-- The loop `while (s.good())` of `led::color_intensity ()` with the vector built so far. -/
def color_intensity_loop : Nat → ifstream → List Nat → List Nat
  | 0, _, ci => ci
  | fuel + 1, s, ci =>
    if s.good then
      match s.extract_unsigned 0 with
      | (s1, value) =>
        if s1.fail then ci
        else color_intensity_loop fuel s1 (ci ++ [value])
    else ci

/-- Model of `led::color_intensity ()` for a device with the colour names `colors`. -/
def color_intensity (colors : List (List Char)) (d : led_dir) : List Nat :=
  if colors.isEmpty then []
  else
    let s := ifstream.ofFile d.multi_intensity.input
    color_intensity_loop (s.buf.length + 1) s []

/-- The text built by `for (auto value : values) ss << ' ' << value;`. -/
def intensity_text (values : List Nat) : List Char :=
  values.foldl (fun ss value => ss ++ ' ' :: to_string value) []

/-- Model of `led::color_intensity (const std::vector<unsigned>& values)`. -/
def set_color_intensity (d : led_dir) (values : List Nat) : Int × led_dir :=
  let r := set_value d.multi_intensity (intensity_text values)
  (r.1, { d with multi_intensity := r.2 })

/-! ## The constructor of `led` and the enumeration of the devices -/

/-- The `errno` value `EINVAL`. -/
def EINVAL : Nat := 22

/-- The `errno` value `ENODEV`. -/
def ENODEV : Nat := 19

/-- The `errno` value `ENOENT`. -/
def ENOENT : Nat := 2

/-- Model of `std::filesystem::path::parent_path ()` on a POSIX pathname: empty for a pathname
without `/`; otherwise what stands before the last `/`, without the slashes that end it, or
the root directory when nothing else stands there. -/
def parent_path (p : List Char) : List Char :=
  let upto := p.reverse.dropWhile (fun c => c != '/')
  if upto.isEmpty then []
  else
    let dir := upto.dropWhile (fun c => c == '/')
    if dir.isEmpty then ['/'] else dir.reverse

/-- The directory `/sys/class/leds` as the library sees it: the entry names in directory
order, the device directory found under a name (`none`: the path does not exist), and the
value of `errno` left by a failed system call. -/
structure sysfs where
  names : List (List Char)
  lookup : List Char → Option led_dir
  errno : Nat

/-- The members of a `led` object that do not change after construction; the four attribute
paths are represented by the `led_dir` the accessors are applied to. -/
structure led where
  led_name : List Char
  colors : List (List Char)
deriving DecidableEq, Repr

/-- The loop `while (s.good())` of the constructor reading `multi_index`; an extraction that
fails before the end of the text throws `errno`. -/
def colors_loop : Nat → ifstream → List (List Char) → Nat → Except Nat (List (List Char))
  | 0, _, colors, _ => .ok colors
  | fuel + 1, s, colors, errnum =>
    if s.good then
      match s.extract_string [] with
      | (s1, color_name) =>
        if !s1.fail then colors_loop fuel s1 (colors ++ [color_name]) errnum
        else if !s1.eof then .error errnum
        else colors_loop fuel s1 colors errnum
    else .ok colors

/-- Model of the constructor `led::led (const std::string& name_arg)`: the object, or the
error code of the `std::system_error` thrown. -/
def led.led (fs : sysfs) (name_arg : List Char) : Except Nat led :=
  if name_arg.isEmpty then .error EINVAL
  else if (parent_path name_arg).isEmpty == false then .error ENODEV
  else
    match fs.lookup name_arg with
    | none => .error (if fs.errno = ENOENT then ENODEV else fs.errno)
    | some d =>
      match d.multi_index with
      | none => .ok { led_name := name_arg, colors := [] }
      | some f =>
        let s := ifstream.ofFile f.input
        match colors_loop (s.buf.length + 1) s [] fs.errno with
        | .ok colors => .ok { led_name := name_arg, colors := colors }
        | .error e => .error e

/-- Model of `led::led_names ()`: the sorted sequence of the non-empty entry names. -/
def led_names (fs : sysfs) : List (List Char) :=
  fs.names.foldl
    (fun names name => if name.isEmpty == false then set_emplace name names else names) []

/-! ## The argument parser of the single-LED tool (`appargs_t::parse_arguments`) -/

/-- The members of `appargs_t`. -/
structure appargs_t where
  led_name : List Char
  trigger : List Char
  brightness : Int
  colors : List Nat
  list : Bool
  names_only : Bool
  show_info : Bool
  set_only_colors : Bool
deriving DecidableEq, Repr

/-- The member initialisers of the constructor `appargs_t::appargs_t`. -/
def appargs_t.init : appargs_t :=
  { led_name := [], trigger := [], brightness := -1, colors := [], list := false,
    names_only := false, show_info := false, set_only_colors := false }

/-- What one pass through the body of the option loop does to the request. `undefined` is the
assignment `trigger = optarg` with a null `optarg`, which has no defined behaviour. -/
inductive option_step where
  | next (opt : appargs_t)
  | exit (status : Nat) (err : List Char)
  | undefined
deriving DecidableEq, Repr

/-- The `switch (c)` of `parse_arguments`; `c` is the code returned by `getopt_long` (`?` for
an error it has reported) and `optarg` the argument it has set, if any. The usage text
printed for `h` goes to standard output and is left out. -/
def switch_option (c : Char) (optarg : Option (List Char)) (opt : appargs_t) : option_step :=
  if c = 'l' then .next { opt with list := true }
  else if c = 'i' then .next { opt with show_info := true }
  else if c = 'c' then .next { opt with set_only_colors := true }
  else if c = 't' then
    match optarg with
    | some a => .next { opt with trigger := a }
    | none => .undefined
  else if c = 'h' then .exit 0 []
  else .exit 1 "Use option -h for help.\n".toList

/-- The string `arg_format`. -/
def arg_format : List Char := "lict:h".toList

/-- Look an option character up in the option string the way `getopt` does: `none` when it is
no option character, otherwise whether a colon follows it, that is whether it takes an
argument. -/
def optstring_find : List Char → Char → Option Bool
  | [], _ => none
  | x :: xs, c => if x = c then some (xs.head? == some ':') else optstring_find xs c

/-- The short option `c`: `:` and `;` are never option characters. -/
def short_option (c : Char) : Option Bool :=
  if c = ':' ∨ c = ';' then none else optstring_find arg_format c

/-- The table `long_options`: name, whether the option takes an argument (every entry is
declared `no_argument`), and the value returned. -/
def long_options : List (List Char × Bool × Char) :=
  [("list".toList, false, 'l'), ("info".toList, false, 'i'), ("colors".toList, false, 'c'),
   ("trigger".toList, false, 't'), ("help".toList, false, 'h')]

/-- The entry of the table a long option name selects, as `getopt_long` does it: an entry with
exactly that name, or else the only entry the name is an abbreviation of. -/
def long_option_find (name : List Char) : Option (List Char × Bool × Char) :=
  match long_options.find? (fun e => e.1 == name) with
  | some e => some e
  | none =>
    match long_options.filter (fun e => name.isPrefixOf e.1) with
    | [e] => some e
    | _ => none

/-- What `getopt_long` returns for an element `--text` when the option found takes no argument
or carries it behind `=`: the code and `optarg`. An option that is not found, and an argument
given to an option declared `no_argument`, are reported and give `?`. (An option that
requires an argument and has none behind `=` does not occur in the table; it gives `?`
here.) -/
def getopt_long_option (text : List Char) : Char × Option (List Char) :=
  let name := text.takeWhile (fun c => c != '=')
  let after := text.dropWhile (fun c => c != '=')
  match long_option_find name with
  | none => ('?', none)
  | some (_, has_arg, val) =>
    match after with
    | [] => if has_arg then ('?', none) else (val, none)
    | _ :: value => if has_arg then (val, some value) else ('?', none)

/-- The result of going through the characters of one element `-abc` of short options. -/
inductive cluster_step where
  | next (opt : appargs_t)
  | need_arg (c : Char) (opt : appargs_t)
  | exit (status : Nat) (err : List Char)
  | undefined
deriving DecidableEq, Repr

/-- The option loop on the characters of one element of short options: each character is
looked up by `getopt_long` and handed to the `switch`. An option that takes an argument
takes the rest of the element, or, at the end of the element, the next element
(`need_arg`). -/
def scan_cluster : List Char → appargs_t → cluster_step
  | [], opt => .next opt
  | c :: cs, opt =>
    match short_option c with
    | none =>
      match switch_option '?' none opt with
      | .next opt1 => scan_cluster cs opt1
      | .exit status err => .exit status err
      | .undefined => .undefined
    | some false =>
      match switch_option c none opt with
      | .next opt1 => scan_cluster cs opt1
      | .exit status err => .exit status err
      | .undefined => .undefined
    | some true =>
      if cs.isEmpty then .need_arg c opt
      else
        match switch_option c (some cs) opt with
        | .next opt1 => .next opt1
        | .exit status err => .exit status err
        | .undefined => .undefined

/-- The result of the option loop: the request so far and the elements left from `optind`
on, or the exit taken inside the loop. -/
inductive scan_result where
  | done (opt : appargs_t) (positional : List (List Char))
  | exit (status : Nat) (err : List Char)
  | undefined
deriving DecidableEq, Repr

/-- The loop `while (1) { int c = getopt_long (...); ... switch (c) ... }` along the elements
of `argv` behind the program name. `getopt_long` of the GNU C library moves the elements
that are no options behind the options (they are collected in `nonopts`), unless
`POSIXLY_CORRECT` is set, when the first of them ends the options; the element `--` ends
the options as well. -/
def scan_options (posixly_correct : Bool) :
    List (List Char) → List (List Char) → appargs_t → scan_result
  | [], nonopts, opt => .done opt nonopts
  | arg :: rest, nonopts, opt =>
    if arg = "--".toList then .done opt (nonopts ++ rest)
    else if arg.head? = some '-' ∧ arg.length ≥ 2 then
      if (arg.drop 1).head? = some '-' then
        match getopt_long_option (arg.drop 2) with
        | (c, optarg) =>
          match switch_option c optarg opt with
          | .next opt1 => scan_options posixly_correct rest nonopts opt1
          | .exit status err => .exit status err
          | .undefined => .undefined
      else
        match scan_cluster (arg.drop 1) opt with
        | .next opt1 => scan_options posixly_correct rest nonopts opt1
        | .need_arg c opt1 =>
          match rest with
          | [] =>
            match switch_option '?' none opt1 with
            | .next opt2 => .done opt2 nonopts
            | .exit status err => .exit status err
            | .undefined => .undefined
          | a :: rest1 =>
            match switch_option c (some a) opt1 with
            | .next opt2 => scan_options posixly_correct rest1 nonopts opt2
            | .exit status err => .exit status err
            | .undefined => .undefined
        | .exit status err => .exit status err
        | .undefined => .undefined
    else if posixly_correct then .done opt (nonopts ++ arg :: rest)
    else scan_options posixly_correct rest (nonopts ++ [arg]) opt

/-- Model of `std::stoi (str)`: leading whitespace, an optional sign and decimal digits; what
follows the digits is ignored. `none` stands for the exceptions `std::invalid_argument` (no
digit) and `std::out_of_range` (not an `int`). -/
def stoi (str : List Char) : Option Int :=
  match ifstream.num_field (str.dropWhile isspace) with
  | (negative, ds, _) =>
    let v : Int := if negative then -(ifstream.digits_value ds : Int)
      else (ifstream.digits_value ds : Int)
    if ds.isEmpty then none
    else if v < ifstream.INT_MIN ∨ v > ifstream.INT_MAX then none
    else some v

/-- The loop `while (optind < argc)` inside the `try` block: `none` when `std::stoi` throws or
a value is negative. -/
def parse_colors : List (List Char) → List Nat → Option (List Nat)
  | [], colors => some colors
  | arg :: rest, colors =>
    match stoi arg with
    | none => none
    | some val => if val < 0 then none else parse_colors rest (colors ++ [val.toNat])

/-- The result of `parse_arguments`: the request, or the exit taken with what the program
wrote to standard error, or undefined behaviour. -/
inductive parse_result where
  | request (opt : appargs_t)
  | exit (status : Nat) (err : List Char)
  | undefined
deriving DecidableEq, Repr

/-- The part of `parse_arguments` behind the option loop. -/
def parse_positional (opt : appargs_t) (positional : List (List Char)) : parse_result :=
  if opt.list then
    if positional.isEmpty == false then
      .exit 1 "Error: Too many arguments, use option -h for help.\n".toList
    else .request opt
  else
    match positional with
    | [] => .exit 1 "Error: Missing arguments, use option -h for help.\n".toList
    | name :: rest =>
      let opt1 := { opt with led_name := name }
      if opt1.show_info then
        if rest.isEmpty == false then
          .exit 1 "Error: Too many arguments, use option -h for help.\n".toList
        else .request opt1
      else
        match rest with
        | [] => .request opt1
        | first :: more =>
          match stoi first with
          | none => .exit 1 "Error: Invalid argument.\n".toList
          | some val =>
            if val < 0 then .exit 1 "Error: Invalid argument.\n".toList
            else
              let opt2 :=
                if opt1.set_only_colors then { opt1 with colors := opt1.colors ++ [val.toNat] }
                else { opt1 with brightness := val }
              match parse_colors more opt2.colors with
              | none => .exit 1 "Error: Invalid argument.\n".toList
              | some colors => .request { opt2 with colors := colors }

/-- Model of `appargs_t::parse_arguments` on a freshly initialised request; `args` are the
elements of `argv` behind the program name. -/
def parse_arguments (posixly_correct : Bool) (args : List (List Char)) : parse_result :=
  match scan_options posixly_correct args [] appargs_t.init with
  | .done opt positional => parse_positional opt positional
  | .exit status err => .exit status err
  | .undefined => .undefined

/-- The decimal text of a non-negative integer: a non-empty run of digits. -/
def is_decimal_text (arg : List Char) : Bool :=
  !arg.isEmpty && arg.all isdigit

/-! ## The list view (`list_leds`) -/

/-- Model of `add_field`: the new value of `max_len` (an `unsigned`, so the assigned size is
taken modulo `2^32`) and the extended list. -/
def add_field (str : List Char) (max_len : Nat) (str_list : List (List Char)) :
    Nat × List (List Char) :=
  (if str.length > max_len then str.length % 4294967296 else max_len, str_list ++ [str])

/-- The value of `int num_spaces = col_size - str.size();`: the difference is formed in the
64 bit unsigned type of `size()` and then narrowed to `int`. -/
def num_spaces (str : List Char) (col_size : Nat) : Int :=
  let diff := (col_size + 18446744073709551616 - str.length % 18446744073709551616)
    % 18446744073709551616
  let low := diff % 4294967296
  if low < 2147483648 then (low : Int) else (low : Int) - 4294967296

/-- Model of `show_field`: the text written to standard output. -/
def show_field (str : List Char) (col_size : Nat) (align_right : Bool) : List Char :=
  let pad := List.replicate (num_spaces str col_size).toNat ' '
  if align_right then pad ++ str else str ++ pad

/-- The local variables of `list_leds`. -/
structure led_table where
  led_names : List (List Char)
  br_txt : List (List Char)
  trigger_names : List (List Char)
  colors : List (List Char)
  num_lines : Nat
  len_led_name : Nat
  len_br_txt : Nat
  len_trigger_names : Nat
  len_colors : Nat
  has_colors : Bool
deriving DecidableEq, Repr

/-- The table behind the four `add_field` calls for the header and `++num_lines`. -/
def list_leds_header : led_table :=
  let f1 := add_field "NAME".toList 0 []
  let f2 := add_field "CUR/MAX".toList 0 []
  let f3 := add_field "TRIGGER".toList 0 []
  let f4 := add_field "COLOR:VALUE[,COLOR:VALUE...]".toList 0 []
  { led_names := f1.2, br_txt := f2.2, trigger_names := f3.2, colors := f4.2,
    num_lines := 1, len_led_name := f1.1, len_br_txt := f2.1, len_trigger_names := f3.1,
    len_colors := f4.1, has_colors := false }

/-- The brightness column of a device: `current/max` with `-` for a side that is negative. -/
def brightness_text (d : led_dir) : List Char :=
  let txt := if brightness d ≥ 0 then to_string (brightness d).toNat else "-".toList
  let txt1 := txt ++ ['/']
  if max_brightness d ≥ 0 then txt1 ++ to_string (max_brightness d).toNat else txt1 ++ ['-']

/-- The loop `for (unsigned c=0; c<c_names.size(); ++c)` that joins `name:value` with commas;
it is only entered with as many values as names. -/
def colors_text : List (List Char) → List Nat → Nat → List Char → List Char
  | name :: names, value :: values, c, txt =>
    let txt1 := if c ≠ 0 then txt ++ [','] else txt
    colors_text names values (c + 1) (txt1 ++ name ++ [':'] ++ to_string value)
  | _, _, _, txt => txt

/-- The body of the loop `for (auto& name : leds)` behind the construction of `led`. -/
def list_leds_row (t : led_table) (l : led) (d : led_dir) : led_table :=
  let f1 := add_field l.led_name t.len_led_name t.led_names
  let f2 := add_field (brightness_text d) t.len_br_txt t.br_txt
  let txt := trigger d.trigger.input
  let f3 :=
    if txt.isEmpty then add_field "-".toList t.len_trigger_names t.trigger_names
    else add_field txt t.len_trigger_names t.trigger_names
  let c_names := l.colors
  let c_values := color_intensity l.colors d
  if c_names.isEmpty == false ∧ c_names.length = c_values.length then
    let f4 := add_field (colors_text c_names c_values 0 []) t.len_colors t.colors
    { led_names := f1.2, br_txt := f2.2, trigger_names := f3.2, colors := f4.2,
      num_lines := t.num_lines + 1, len_led_name := f1.1, len_br_txt := f2.1,
      len_trigger_names := f3.1, len_colors := f4.1, has_colors := true }
  else
    let f4 := add_field [] t.len_colors t.colors
    { led_names := f1.2, br_txt := f2.2, trigger_names := f3.2, colors := f4.2,
      num_lines := t.num_lines + 1, len_led_name := f1.1, len_br_txt := f2.1,
      len_trigger_names := f3.1, len_colors := f4.1, has_colors := t.has_colors }

/-- The loop `for (auto& name : leds)`: the table, or the error code thrown by a
constructor. -/
def list_leds_collect (fs : sysfs) : List (List Char) → led_table → Except Nat led_table
  | [], t => .ok t
  | name :: names, t =>
    match led.led fs name with
    | .error e => .error e
    | .ok l =>
      match fs.lookup name with
      | none => .error fs.errno
      | some d => list_leds_collect fs names (list_leds_row t l d)

/-- The body of the printing loop `for (unsigned i=0; i<num_lines; ++i)`: the text of line
`i`, with the newline of `endl`. -/
def list_leds_line (t : led_table) (i : Nat) : List Char :=
  let head := show_field (t.led_names.getD i []) t.len_led_name false ++ [' '] ++
    show_field (t.br_txt.getD i []) t.len_br_txt false
  let tail :=
    if (t.trigger_names.getD i []).isEmpty == false ∨ (t.colors.getD i []).isEmpty == false then
      (if t.len_trigger_names ≠ 0 then
        [' '] ++ (if (t.colors.getD i []).isEmpty then t.trigger_names.getD i []
          else show_field (t.trigger_names.getD i []) t.len_trigger_names false)
      else []) ++
      (if t.has_colors then
        (if (t.colors.getD i []).isEmpty == false then [' '] ++ t.colors.getD i [] else [])
      else [])
    else []
  head ++ tail ++ ['\n']

/-- The lines printed by `list_leds` for a table. -/
def list_leds_lines (t : led_table) : List (List Char) :=
  (List.range t.num_lines).map (list_leds_line t)

/-- Model of `list_leds ()`: the lines written to standard output, or the error code of the
exception that leaves the function. -/
def list_leds (fs : sysfs) : Except Nat (List (List Char)) :=
  match list_leds_collect fs (led_names fs) list_leds_header with
  | .error e => .error e
  | .ok t => .ok (list_leds_lines t)

/-- A text followed by spaces up to a width; a text that is wider is left as it is. -/
def pad_right (width : Nat) (str : List Char) : List Char :=
  str ++ List.replicate (width - str.length) ' '

/-- A width is the width of a column when no entry of the column is longer and one entry is
exactly that long: it is the maximum length over the entries. -/
def is_width (width : Nat) (column : List (List Char)) : Prop :=
  (∀ str ∈ column, str.length ≤ width) ∧ ∃ str ∈ column, str.length = width

/-- Every text of a column is shorter than `2^31` characters, so that its length and the
padding behind it fit the `unsigned` and `int` variables of `add_field` and `show_field`. -/
def short_texts (column : List (List Char)) : Prop :=
  ∀ str ∈ column, str.length < 2147483648

instance (width : Nat) (column : List (List Char)) : Decidable (is_width width column) := by
  unfold is_width; infer_instance

instance (column : List (List Char)) : Decidable (short_texts column) := by
  unfold short_texts; infer_instance

/-- What holds of every table the collecting loop goes through: the columns have one entry
per line, no trigger entry is empty, and, as long as the texts are short, the three widths
used for padding are the maximum lengths of their columns. -/
def table_inv (t : led_table) : Prop :=
  t.led_names.length = t.num_lines ∧ t.br_txt.length = t.num_lines ∧
  t.trigger_names.length = t.num_lines ∧ t.colors.length = t.num_lines ∧
  (∀ str ∈ t.trigger_names, str ≠ []) ∧
  (short_texts t.led_names → is_width t.len_led_name t.led_names) ∧
  (short_texts t.br_txt → is_width t.len_br_txt t.br_txt) ∧
  (short_texts t.trigger_names → is_width t.len_trigger_names t.trigger_names)

/-- How a run of a function of the tool ends: it returns, it calls `exit`, it leaves with an
exception carrying an error code, or it reaches an operation without defined behaviour. -/
inductive run_end where
  | returned
  | exit (status : Nat)
  | thrown (errnum : Nat)
  | undefined
deriving DecidableEq, Repr

/-- What a run wrote to standard output and to standard error, and how it ended. -/
structure trace where
  out : List Char
  err : List Char
  stop : run_end
deriving DecidableEq, Repr

/-- The string `fn_bold`: the escape sequence `FONT_BOLD` when standard output is a terminal. -/
def fn_bold (tty : Bool) : List Char :=
  if tty then "\x1b[1m".toList else []

/-- The string `fn_normal`: the escape sequence `FONT_NORMAL` when standard output is a
terminal. -/
def fn_normal (tty : Bool) : List Char :=
  if tty then "\x1b[0m".toList else []

/-- Model of `cout << std::setw(w) << value`: the text of the value, spaces before it up to
the width. -/
def setw_text (w : Nat) (txt : List Char) : List Char :=
  List.replicate (w - txt.length) ' ' ++ txt

/-- The loop `for (size_t i=0; i<colors.size(); ++i)` of `print_led_info`; it is only entered
with as many values as names. -/
def info_colors : List (List Char) → List Nat → Nat → List Char → List Char
  | name :: names, value :: values, i, out =>
    let out1 := if i ≠ 0 then out ++ [' '] else out
    info_colors names values (i + 1) (out1 ++ name ++ [':'] ++ to_string value)
  | _, _, _, out => out

/-- The loop `for (auto& trigger : led.triggers())` of `print_led_info`. -/
def info_triggers (tty : Bool) (active_trigger : List Char) :
    List (List Char) → Nat → List Char → List Char
  | [], _, out => out
  | trigger :: rest, i, out =>
    let out1 := if i ≠ 0 then out ++ [' '] else out
    let out2 :=
      if trigger = active_trigger then
        out1 ++ ['['] ++ fn_bold tty ++ trigger ++ fn_normal tty ++ [']']
      else out1 ++ trigger
    info_triggers tty active_trigger rest (i + 1) out2

/-- What `print_led_info` writes before it looks at the colours: the lines for the name, the
location, the brightness and the maximum brightness, and the label `Multicolor    : `. -/
def info_head (l : led) (d : led_dir) : List Char :=
  let max_br_str := to_string_int (max_brightness d)
  let w := max_br_str.length
  "Name          : ".toList ++ l.led_name ++ ['\n'] ++
  "Location      : ".toList ++ "/sys/class/leds/".toList ++ l.led_name ++ ['\n'] ++
  "Brightness    : ".toList ++ setw_text w (to_string_int (brightness d)) ++ ['\n'] ++
  "Max brightness: ".toList ++ max_br_str ++ ['\n'] ++
  "Multicolor    : ".toList

/-- The end of `print_led_info`: the line of the triggers behind what was written before. -/
def info_tail (tty : Bool) (d : led_dir) (out : List Char) : trace :=
  { out := out ++ "Triggers      : ".toList ++
      info_triggers tty (trigger d.trigger.input) (triggers d.trigger.input) 0 [] ++ ['\n'],
    err := [], stop := .returned }

/-- Model of `print_led_info (opt)`. -/
def print_led_info (tty : Bool) (fs : sysfs) (opt : appargs_t) : trace :=
  match led.led fs opt.led_name with
  | .error e => { out := [], err := [], stop := .thrown e }
  | .ok l =>
    match fs.lookup opt.led_name with
    | none => { out := [], err := [], stop := .thrown fs.errno }
    | some d =>
      if l.colors.isEmpty == false then
        let out1 := info_head l d ++ "Yes\n".toList ++ "Color values  : ".toList
        let values := color_intensity l.colors d
        if l.colors.length ≠ values.length then
          { out := out1, err := "Error getting color values.\n".toList, stop := .exit 1 }
        else info_tail tty d (out1 ++ info_colors l.colors values 0 [] ++ ['\n'])
      else info_tail tty d (info_head l d ++ "No\n".toList)

/-- The loop `for (size_t i=0; i<cnames.size(); ++i)` of the status line. `cvalue[i]` is read
without a test of `i` against the size of `cvalue`: `none` stands for a read behind the end
of the vector. -/
def status_colors : List (List Char) → List Nat → Nat → List Char → Option (List Char)
  | [], _, _, out => some out
  | name :: names, cvalue, i, out =>
    match cvalue[i]? with
    | none => none
    | some value =>
      let out1 := if i ≠ 0 then out ++ [','] else out
      status_colors names cvalue (i + 1) (out1 ++ name ++ [':'] ++ to_string value)

/-- The part of `main` behind `ledpp::led led (opt.led_name);`: the status line when the
request carries no trigger, brightness or colours, otherwise the writes in the order trigger,
brightness, colours. Returns the trace and the device directory afterwards; `errnum` is the
value of `errno` thrown when a write fails. -/
def main_led (l : led) (d : led_dir) (opt : appargs_t) (errnum : Nat) : trace × led_dir :=
  if opt.brightness < 0 ∧ opt.colors.isEmpty ∧ opt.trigger.isEmpty then
    let out1 := to_string_int (brightness d) ++ ['/'] ++ to_string_int (max_brightness d)
    let out2 :=
      if l.colors.isEmpty == false then
        status_colors l.colors (color_intensity l.colors d) 0 (out1 ++ ['\t'])
      else some out1
    match out2 with
    | none => ({ out := out1 ++ ['\t'], err := [], stop := .undefined }, d)
    | some out3 =>
      let t := trigger d.trigger.input
      let out4 := if t ≠ "none".toList then out3 ++ "\ttrigger:".toList ++ t else out3
      ({ out := out4 ++ ['\n'], err := [], stop := .returned }, d)
  else
    let r1 := if opt.trigger.isEmpty == false then set_trigger d opt.trigger else (0, d)
    if r1.1 ≠ 0 then ({ out := [], err := [], stop := .thrown errnum }, r1.2)
    else
      let r2 :=
        if opt.brightness ≥ 0 then set_brightness r1.2 opt.brightness.toNat else (0, r1.2)
      if r2.1 ≠ 0 then ({ out := [], err := [], stop := .thrown errnum }, r2.2)
      else if opt.colors.isEmpty == false then
        if opt.colors.length ≠ l.colors.length then
          ({ out := [], err := "Error: Invalid number of color values\n".toList,
             stop := .exit 1 }, r2.2)
        else
          let r3 := set_color_intensity r2.2 opt.colors
          if r3.1 ≠ 0 then ({ out := [], err := [], stop := .thrown errnum }, r3.2)
          else ({ out := [], err := [], stop := .returned }, r3.2)
      else ({ out := [], err := [], stop := .returned }, r2.2)

/-- The filesystem with the directory of one device replaced. -/
def sysfs.store (fs : sysfs) (name : List Char) (d : led_dir) : sysfs :=
  { fs with lookup := fun n => if n = name then some d else fs.lookup n }

/-- The body of the `try` block of `main` for a parsed request. -/
def main_try (tty : Bool) (fs : sysfs) (opt : appargs_t) : trace × sysfs :=
  if opt.list then
    if opt.names_only then
      ({ out := ((led_names fs).map (fun name => name ++ ['\n'])).flatten, err := [],
         stop := .returned }, fs)
    else
      match list_leds fs with
      | .error e => ({ out := [], err := [], stop := .thrown e }, fs)
      | .ok lines => ({ out := lines.flatten, err := [], stop := .returned }, fs)
  else if opt.show_info then (print_led_info tty fs opt, fs)
  else
    match led.led fs opt.led_name with
    | .error e => ({ out := [], err := [], stop := .thrown e }, fs)
    | .ok l =>
      match fs.lookup opt.led_name with
      | none => ({ out := [], err := [], stop := .thrown fs.errno }, fs)
      | some d =>
        let r := main_led l d opt fs.errno
        (r.1, fs.store opt.led_name r.2)

/-- Model of `main` behind the construction of `opt`: the `try` block, the handler
`catch (std::exception& e)` that prints `Error: ` and `e.what()` and exits with status 1, and
`return 0`. `what` gives the text of `e.what()` for an error code. -/
def main_request (tty : Bool) (what : Nat → List Char) (fs : sysfs) (opt : appargs_t) :
    trace × sysfs :=
  let r := main_try tty fs opt
  match r.1.stop with
  | .thrown e =>
    ({ out := r.1.out, err := r.1.err ++ "Error: ".toList ++ what e ++ ['\n'], stop := .exit 1 },
      r.2)
  | .returned => ({ out := r.1.out, err := r.1.err, stop := .exit 0 }, r.2)
  | .exit status => ({ out := r.1.out, err := r.1.err, stop := .exit status }, r.2)
  | .undefined => ({ out := r.1.out, err := r.1.err, stop := .undefined }, r.2)

/-- A filesystem with the single device `led0` whose active trigger `heartbeat` is longer
than the header `TRIGGER`, no colours. -/
def fs_heartbeat : sysfs :=
  { names := ["led0".toList],
    lookup := fun name =>
      if name = "led0".toList then
        some ⟨⟨"0\n".toList, true, true⟩, ⟨"255\n".toList, true, false⟩, ⟨[], false, false⟩,
          ⟨"none timer [heartbeat]\n".toList, true, true⟩, none⟩
      else none,
    errno := 2 }

/-- A filesystem with the single multicolour device `led0`: three colour names in
`multi_index`, but only two values in `multi_intensity`. -/
def fs_rgb_short : sysfs :=
  { names := ["led0".toList],
    lookup := fun name =>
      if name = "led0".toList then
        some ⟨⟨"7\n".toList, true, true⟩, ⟨"255\n".toList, true, false⟩,
          ⟨"255 0\n".toList, true, true⟩, ⟨"[none] timer\n".toList, true, true⟩,
          some ⟨"red green blue\n".toList, true, false⟩⟩
      else none,
    errno := 2 }

/-- What holds of the last fields of every table the collecting loop goes through: no
trigger entry and no colour entry ends with a space, the first entries are the header texts,
and `has_colors` is set as soon as the colour entry of a device is not empty. -/
def table_ends (t : led_table) : Prop :=
  (∀ str ∈ t.trigger_names, str.getLast? ≠ some ' ') ∧
  (∀ str ∈ t.colors, str.getLast? ≠ some ' ') ∧
  (∀ str ∈ t.colors.tail, str ≠ [] → t.has_colors = true) ∧
  t.trigger_names.head? = some "TRIGGER".toList ∧
  t.colors.head? = some "COLOR:VALUE[,COLOR:VALUE...]".toList

/-! ## Reference notions for the colour intensities -/

/-- The value of a token that is an unsigned decimal numeral within the range of `unsigned`:
a non-empty run of digits and nothing else. -/
def token_unsigned (t : List Char) : Option Nat :=
  if !t.isEmpty && t.all isdigit && decide (ifstream.digits_value t ≤ ifstream.UINT_MAX) then
    some (ifstream.digits_value t)
  else none

/-- The values of the longest leading run of tokens that are unsigned numerals. -/
def leading_values : List (List Char) → List Nat
  | [] => []
  | t :: ts =>
    match token_unsigned t with
    | some v => v :: leading_values ts
    | none => []

/-- The first token that is not an unsigned numeral, if there is one. -/
def stop_token : List (List Char) → Option (List Char)
  | [] => none
  | t :: ts =>
    match token_unsigned t with
    | some _ => stop_token ts
    | none => some t

/-- The reference definition as the sentence on `color_intensity()` words it: nothing for a
device without colour channels, otherwise the values of the longest leading run of tokens
that parse as unsigned integers. -/
def stated_color_intensity (colors : List (List Char)) (content : List Char) : List Nat :=
  if colors.isEmpty then [] else leading_values (tokens content)

/-! # Properties -/

/-! ## Tokens and string extraction -/

theorem tokens_nil : tokens [] = [] := by
  simp [tokens]

theorem tokens_cons_space (c : Char) (cs : List Char) (h : isspace c = true) :
    tokens (c :: cs) = tokens cs := by
  simp [tokens, List.splitOnP_cons, h]

theorem tokens_dropWhile (cs : List Char) : tokens (cs.dropWhile isspace) = tokens cs := by
  induction cs with
  | nil => rfl
  | cons c cs ih =>
    by_cases h : isspace c = true
    · rw [List.dropWhile_cons_of_pos h, ih, tokens_cons_space c cs h]
    · rw [List.dropWhile_cons_of_neg h]

theorem tokens_word (w rest : List Char) (hw : w ≠ []) (hns : ∀ c ∈ w, ¬ isspace c = true)
    (hrest : ∀ c ∈ rest.head?, isspace c = true) :
    tokens (w ++ rest) = w :: tokens rest := by
  cases rest with
  | nil =>
    have h1 : List.splitOnP isspace w = [w] := List.splitOnP_eq_single isspace w hns
    simp [tokens, h1, hw]
  | cons sp r =>
    have hsp : isspace sp = true := hrest sp (by simp)
    have h1 := List.splitOnP_first isspace w hns sp hsp r
    rw [tokens_cons_space sp r hsp]
    simp [tokens, h1, hw]

theorem tokens_split (r : List Char) (hr : r ≠ [])
    (hhead : ∀ c ∈ r.head?, ¬ isspace c = true) :
    r.takeWhile (fun c => !isspace c) ≠ [] ∧
    tokens r = r.takeWhile (fun c => !isspace c) :: tokens (r.dropWhile (fun c => !isspace c)) := by
  have hw : r.takeWhile (fun c => !isspace c) ≠ [] := by
    cases r with
    | nil => exact absurd rfl hr
    | cons c t =>
      have hc : ¬ isspace c = true := hhead c (by simp)
      simp [List.takeWhile_cons, hc]
  refine ⟨hw, ?_⟩
  have hns : ∀ c ∈ r.takeWhile (fun c => !isspace c), ¬ isspace c = true := by
    intro c hc
    have := List.mem_takeWhile_imp hc
    simpa using this
  have hrest : ∀ c ∈ (r.dropWhile (fun c => !isspace c)).head?, isspace c = true := by
    intro c hc
    have h2 := List.head?_dropWhile_not (fun c => !isspace c) r
    rw [Option.mem_def] at hc
    rw [hc] at h2
    simpa using h2
  have := tokens_word _ _ hw hns hrest
  rwa [List.takeWhile_append_dropWhile] at this

theorem head_dropWhile_isspace (cs : List Char) :
    ∀ c ∈ (cs.dropWhile isspace).head?, ¬ isspace c = true := by
  intro c hc
  have h2 := List.head?_dropWhile_not isspace cs
  rw [Option.mem_def] at hc
  rw [hc] at h2
  simpa using h2

theorem length_dropWhile_le {α : Type} (p : α → Bool) (l : List α) :
    (l.dropWhile p).length ≤ l.length := by
  induction l with
  | nil => simp
  | cons a l ih =>
    by_cases h : p a = true
    · rw [List.dropWhile_cons_of_pos h]; simp; omega
    · rw [List.dropWhile_cons_of_neg h]

theorem length_dropWhile_lt {α : Type} (p : α → Bool) (l : List α)
    (h : l.takeWhile p ≠ []) : (l.dropWhile p).length < l.length := by
  cases l with
  | nil => simp at h
  | cons a l =>
    by_cases ha : p a = true
    · rw [List.dropWhile_cons_of_pos ha]
      have := length_dropWhile_le p l
      simp; omega
    · simp [List.takeWhile_cons, ha] at h

/-- One `s >> name` on a good stream: either only whitespace is left and the extraction fails,
or the next token is delivered and the stream stands right behind it. -/
theorem extract_string_good (cs old : List Char) :
    (tokens cs = [] ∧
      ifstream.extract_string ⟨cs, false, false⟩ old = (⟨[], true, true⟩, old)) ∨
    (∃ w rest, w ≠ [] ∧ tokens cs = w :: tokens rest ∧ rest.length < cs.length ∧
      ifstream.extract_string ⟨cs, false, false⟩ old = (⟨rest, rest.isEmpty, false⟩, w)) := by
  by_cases h : cs.dropWhile isspace = []
  · left
    refine ⟨?_, ?_⟩
    · rw [← tokens_dropWhile, h, tokens_nil]
    · simp [ifstream.extract_string, ifstream.sentry, ifstream.good, h]
  · right
    obtain ⟨hw, ht⟩ := tokens_split _ h (head_dropWhile_isspace cs)
    refine ⟨(cs.dropWhile isspace).takeWhile (fun c => !isspace c),
      (cs.dropWhile isspace).dropWhile (fun c => !isspace c), hw, ?_, ?_, ?_⟩
    · rw [← tokens_dropWhile cs]; exact ht
    · exact lt_of_lt_of_le (length_dropWhile_lt _ _ hw) (length_dropWhile_le _ _)
    · simp [ifstream.extract_string, ifstream.sentry, ifstream.good, h, hw]

/-! ## The bracket test -/

/-- The test of the code (`len >= 3`, first character `[`, last character `]`) selects the
tokens of the form `[x]` with `x` non-empty, and `substr (1, len-2)` is `x`. -/
theorem bracket_name_eq_code (t : List Char) :
    bracket_name t =
      if t.length ≥ 3 ∧ is_bracketed t = true then some (substr t 1 (t.length - 2)) else none := by
  cases t with
  | nil => simp [bracket_name]
  | cons c r =>
    cases r with
    | nil => simp [bracket_name]
    | cons a r1 =>
      cases r1 with
      | nil => simp [bracket_name]
      | cons b r2 =>
        have h3 : (c :: a :: b :: r2).length ≥ 3 := by simp
        have hd : (a :: b :: r2).dropLast ≠ [] := by simp [List.dropLast]
        have hs : substr (c :: a :: b :: r2) 1 ((c :: a :: b :: r2).length - 2)
            = (a :: b :: r2).dropLast := by
          simp [substr, List.dropLast_eq_take]
        have hl : (c :: a :: b :: r2).getLast? = (a :: b :: r2).getLast? := by
          simp [List.getLast?_cons_cons]
        rw [hs]
        simp only [bracket_name, is_bracketed, hl, h3, hd, List.head?_cons]
        by_cases hc : c = '[' <;> by_cases hg : (a :: b :: r2).getLast? = some ']' <;>
          simp [hc, hg]

/-- A token has bracket name `x` exactly when it is `[x]` with `x` non-empty. -/
theorem bracket_name_eq_some_iff (t x : List Char) :
    bracket_name t = some x ↔ x ≠ [] ∧ t = '[' :: (x ++ [']']) := by
  cases t with
  | nil => simp [bracket_name]
  | cons c r =>
    simp only [bracket_name]
    constructor
    · intro h
      split_ifs at h with hc
      obtain ⟨h1, h2, h3⟩ := hc
      have hx : r.dropLast = x := Option.some.inj h
      have hr : r ≠ [] := by
        intro h0; simp [h0] at h2
      have hlast : r.getLast hr = ']' := by
        rw [List.getLast?_eq_getLast r hr] at h2
        exact Option.some.inj h2
      refine ⟨hx ▸ h3, ?_⟩
      rw [h1, ← hx, ← hlast, List.dropLast_append_getLast hr]
    · rintro ⟨hx, ht⟩
      have h1 : c = '[' := (List.cons.inj ht).1
      have h2 : r = x ++ [']'] := (List.cons.inj ht).2
      subst h2
      simp [h1, hx]

/-- No bracket name is empty. -/
theorem bracket_name_ne_nil (t : List Char) : bracket_name t ≠ some [] := by
  intro h
  exact ((bracket_name_eq_some_iff t []).1 h).1 rfl

theorem active_entry_eq_nil_iff (ts : List (List Char)) :
    active_entry ts = [] ↔ ∀ t ∈ ts, bracket_name t = none := by
  induction ts with
  | nil => simp [active_entry]
  | cons t ts ih =>
    cases hb : bracket_name t with
    | none => simp [active_entry, hb, ih]
    | some x =>
      have hx : x ≠ [] := by
        intro h0; rw [h0] at hb; exact bracket_name_ne_nil t hb
      simp [active_entry, hb, hx]

/-! ## `led::trigger` follows the tokens -/

theorem trigger_loop_not_good (fuel : Nat) (s : ifstream) (h : s.good = false) :
    trigger_loop fuel s = [] := by
  cases fuel <;> simp [trigger_loop, h]

theorem trigger_loop_eq (fuel : Nat) :
    ∀ cs : List Char, cs.length < fuel →
      trigger_loop fuel ⟨cs, false, false⟩ = active_entry (tokens cs) := by
  induction fuel with
  | zero => intro cs h; omega
  | succ fuel ih =>
    intro cs hlen
    rcases extract_string_good cs [] with ⟨ht, he⟩ | ⟨w, rest, hw, ht, hlt, he⟩
    · rw [ht]
      simp only [trigger_loop, ifstream.good, he, ifstream.fail]
      simp [active_entry, trigger_loop_not_good, ifstream.good]
    · rw [ht]
      have hnext : trigger_loop fuel ⟨rest, rest.isEmpty, false⟩ = active_entry (tokens rest) := by
        cases rest with
        | nil => simp [trigger_loop_not_good, ifstream.good, tokens_nil, active_entry]
        | cons c r => exact ih (c :: r) (by omega)
      simp only [trigger_loop, ifstream.good, he, ifstream.fail, active_entry,
        bracket_name_eq_code w]
      by_cases h3 : w.length ≥ 3 <;> by_cases hb : is_bracketed w = true <;>
        simp [h3, hb, hnext]

theorem active_entry_append (pre post : List (List Char)) (t x : List Char)
    (hpre : ∀ u ∈ pre, bracket_name u = none) (ht : bracket_name t = some x) :
    active_entry (pre ++ t :: post) = x := by
  induction pre with
  | nil => simp [active_entry, ht]
  | cons u pre ih =>
    have hu : bracket_name u = none := hpre u (by simp)
    have hrest : ∀ v ∈ pre, bracket_name v = none := fun v hv => hpre v (by simp [hv])
    simp [active_entry, hu, ih hrest]

theorem bracket_name_eq_none_iff (t : List Char) :
    bracket_name t = none ↔ ∀ y : List Char, y ≠ [] → t ≠ '[' :: (y ++ [']']) := by
  constructor
  · intro h y hy ht
    have := (bracket_name_eq_some_iff t y).2 ⟨hy, ht⟩
    rw [h] at this
    exact Option.noConfusion this
  · intro h
    cases hb : bracket_name t with
    | none => rfl
    | some x =>
      obtain ⟨hx, ht⟩ := (bracket_name_eq_some_iff t x).1 hb
      exact absurd ht (h x hx)

theorem trigger_eq_active_entry (content : List Char) :
    trigger (some content) = active_entry (tokens content) := by
  simp only [trigger, ifstream.ofFile]
  exact trigger_loop_eq _ content (by omega)

/-! ## `led::triggers` follows the tokens -/

theorem string_less_total (x : List Char) :
    ∀ y : List Char, string_less x y = false → string_less y x = false → x = y := by
  induction x with
  | nil =>
    intro y h1 h2
    cases y with
    | nil => rfl
    | cons b bs => simp [string_less] at h1
  | cons a as ih =>
    intro y h1 h2
    cases y with
    | nil => simp [string_less] at h2
    | cons b bs =>
      simp only [string_less] at h1 h2
      by_cases hab : a.toNat < b.toNat
      · simp [hab] at h1
      · by_cases hba : b.toNat < a.toNat
        · simp [hba] at h2
        · simp only [hab, hba, if_false] at h1 h2
          have hn : a.toNat = b.toNat := by omega
          have hc : a = b := by
            apply Char.ext
            apply UInt32.ext
            exact hn
          rw [hc, ih bs h1 h2]

theorem mem_set_emplace (n x : List Char) (s : List (List Char)) :
    n ∈ set_emplace x s ↔ n = x ∨ n ∈ s := by
  induction s with
  | nil => simp [set_emplace]
  | cons y ys ih =>
    simp only [set_emplace]
    by_cases h1 : string_less x y = true
    · simp [h1]
    · by_cases h2 : string_less y x = true
      · simp only [h1, h2, if_true, Bool.false_eq_true, if_false, List.mem_cons, ih]
        tauto
      · have hxy : x = y := string_less_total x y (by simpa using h1) (by simpa using h2)
        rw [if_neg h1, if_neg h2, hxy]
        simp only [List.mem_cons]
        tauto

theorem unwrap_token_eq_code (w : List Char) :
    unwrap_token w =
      if w.length ≥ 3 then (if is_bracketed w = true then substr w 1 (w.length - 2) else w)
      else w := by
  simp only [unwrap_token, bracket_name_eq_code w]
  by_cases h3 : w.length ≥ 3 <;> by_cases hb : is_bracketed w = true <;> simp [h3, hb]

theorem triggers_loop_not_good (fuel : Nat) (s : ifstream) (set : List (List Char))
    (h : s.good = false) : triggers_loop fuel s set = set := by
  cases fuel <;> simp [triggers_loop, h]

theorem mem_triggers_loop (fuel : Nat) :
    ∀ (cs : List Char) (set : List (List Char)), cs.length < fuel →
      ∀ n, n ∈ triggers_loop fuel ⟨cs, false, false⟩ set ↔
        n ∈ set ∨ ∃ t ∈ tokens cs, n = unwrap_token t := by
  induction fuel with
  | zero => intro cs set h; omega
  | succ fuel ih =>
    intro cs set hlen n
    rcases extract_string_good cs [] with ⟨ht, he⟩ | ⟨w, rest, hw, ht, hlt, he⟩
    · rw [ht]
      simp only [triggers_loop, ifstream.good, he, ifstream.fail]
      simp [triggers_loop_not_good, ifstream.good]
    · rw [ht]
      have hnext : ∀ set1, (n ∈ triggers_loop fuel ⟨rest, rest.isEmpty, false⟩ set1 ↔
          n ∈ set1 ∨ ∃ t ∈ tokens rest, n = unwrap_token t) := by
        intro set1
        cases rest with
        | nil => simp [triggers_loop_not_good, ifstream.good, tokens_nil]
        | cons c r => exact ih (c :: r) set1 (by omega) n
      simp only [triggers_loop, ifstream.good, he, ifstream.fail]
      simp only [Bool.not_false, Bool.and_self, if_true, ← unwrap_token_eq_code w]
      rw [hnext, mem_set_emplace]
      simp only [List.mem_cons, exists_eq_or_imp]
      tauto

theorem mem_triggers (content n : List Char) :
    n ∈ triggers (some content) ↔ ∃ t ∈ tokens content, n = unwrap_token t := by
  simp only [triggers, ifstream.ofFile]
  rw [mem_triggers_loop _ content [] (by omega) n]
  simp

/-! ## Claims on the trigger attribute -/

/-- C1: for every content of the trigger attribute, `trigger()` is the name `x` of the first
whitespace-separated token of the form `[x]` with `x` non-empty; it is empty exactly when
no token has that form; on `none [timer] heartbeat` it is `timer`. -/
theorem trigger_first_bracketed_token (content : List Char) :
    trigger (some content) = active_entry (tokens content) ∧
    (∀ (pre post : List (List Char)) (x : List Char),
      tokens content = pre ++ ('[' :: (x ++ [']'])) :: post → x ≠ [] →
      (∀ t ∈ pre, ∀ y : List Char, y ≠ [] → t ≠ '[' :: (y ++ [']'])) →
      trigger (some content) = x) ∧
    (trigger (some content) = [] ↔
      ∀ t ∈ tokens content, ∀ y : List Char, y ≠ [] → t ≠ '[' :: (y ++ [']'])) ∧
    trigger (some "none [timer] heartbeat".toList) = "timer".toList := by
  refine ⟨trigger_eq_active_entry content, ?_, ?_, by decide⟩
  · intro pre post x htok hx hpre
    rw [trigger_eq_active_entry, htok]
    apply active_entry_append
    · intro u hu
      exact (bracket_name_eq_none_iff u).2 (hpre u hu)
    · exact (bracket_name_eq_some_iff _ x).2 ⟨hx, rfl⟩
  · rw [trigger_eq_active_entry, active_entry_eq_nil_iff]
    constructor
    · intro h t ht
      exact (bracket_name_eq_none_iff t).1 (h t ht)
    · intro h t ht
      exact (bracket_name_eq_none_iff t).2 (h t ht)

/-- C2, as worded, fails on the content `[]`: the token `[]` is wrapped in square brackets, so
the worded set holds the empty name, while `triggers()` keeps the token `[]` unchanged. -/
theorem triggers_keeps_empty_brackets :
    triggers (some "[]".toList) = ["[]".toList] ∧
    stated_trigger_names "[]".toList = [[]] ∧
    ¬ (∀ n : List Char, n ∈ triggers (some "[]".toList) ↔
        n ∈ stated_trigger_names "[]".toList) := by
  refine ⟨by decide, by decide, ?_⟩
  intro h
  have h1 : "[]".toList ∈ stated_trigger_names "[]".toList := (h _).1 (by decide)
  revert h1
  decide

/-- C2, amended: for every content of the trigger attribute, `triggers()` is, as a set, the
set of the whitespace-separated tokens in which every token `[x]` with `x` non-empty is
replaced by `x` and every other token (the token `[]` too) is kept; on
`none [timer] heartbeat` it is the set of `none`, `timer` and `heartbeat`. -/
theorem triggers_eq_unwrapped_tokens (content : List Char) :
    (∀ n : List Char, n ∈ triggers (some content) ↔
      ∃ t ∈ tokens content,
        (∃ x : List Char, x ≠ [] ∧ t = '[' :: (x ++ [']']) ∧ n = x) ∨
        ((∀ x : List Char, x ≠ [] → t ≠ '[' :: (x ++ [']'])) ∧ n = t)) ∧
    (triggers (some content)).toFinset = ((tokens content).map unwrap_token).toFinset ∧
    (triggers (some "none [timer] heartbeat".toList)).toFinset
      = {"none".toList, "timer".toList, "heartbeat".toList} := by
  refine ⟨?_, ?_, by decide⟩
  · intro n
    rw [mem_triggers]
    constructor
    · rintro ⟨t, ht, hn⟩
      refine ⟨t, ht, ?_⟩
      cases hb : bracket_name t with
      | none =>
        right
        exact ⟨(bracket_name_eq_none_iff t).1 hb, by simp [hn, unwrap_token, hb]⟩
      | some x =>
        left
        obtain ⟨hx, htx⟩ := (bracket_name_eq_some_iff t x).1 hb
        exact ⟨x, hx, htx, by simp [hn, unwrap_token, hb]⟩
    · rintro ⟨t, ht, ⟨x, hx, htx, hn⟩ | ⟨hno, hn⟩⟩
      · refine ⟨t, ht, ?_⟩
        have hb := (bracket_name_eq_some_iff t x).2 ⟨hx, htx⟩
        simp [hn, unwrap_token, hb]
      · refine ⟨t, ht, ?_⟩
        have hb := (bracket_name_eq_none_iff t).2 hno
        simp [hn, unwrap_token, hb]
  · ext n
    simp only [List.mem_toFinset, mem_triggers, List.mem_map]
    constructor
    · rintro ⟨t, ht, hn⟩; exact ⟨t, ht, hn.symm⟩
    · rintro ⟨t, ht, hn⟩; exact ⟨t, ht, hn.symm⟩

/-! ## Decimal digits -/

theorem toNat_digit_char (d : Nat) (h : d < 10) : (Char.ofNat (48 + d)).toNat = 48 + d := by
  interval_cases d <;> rfl

theorem isdigit_digit_char (d : Nat) (h : d < 10) : isdigit (Char.ofNat (48 + d)) = true := by
  simp [isdigit, toNat_digit_char d h]
  omega

theorem digit_value_digit_char (d : Nat) (h : d < 10) : digit_value (Char.ofNat (48 + d)) = d := by
  simp [digit_value, toNat_digit_char d h]

theorem not_isspace_of_isdigit (c : Char) (h : isdigit c = true) : ¬ isspace c = true := by
  simp only [isdigit, isspace, Bool.and_eq_true, Bool.or_eq_true, decide_eq_true_eq,
    beq_iff_eq] at h ⊢
  omega

theorem not_sign_of_isdigit (c : Char) (h : isdigit c = true) : c ≠ '-' ∧ c ≠ '+' := by
  constructor
  · intro hc; rw [hc] at h; revert h; decide
  · intro hc; rw [hc] at h; revert h; decide

theorem foldl_digits (ds : List Char) :
    ∀ start : Nat, ds.foldl (fun acc c => acc * 10 + digit_value c) start
      = start * 10 ^ ds.length + ifstream.digits_value ds := by
  induction ds with
  | nil => intro start; simp [ifstream.digits_value]
  | cons c ds ih =>
    intro start
    simp only [ifstream.digits_value, List.foldl_cons, List.length_cons]
    rw [ih (start * 10 + digit_value c), ih (0 * 10 + digit_value c)]
    simp only [ifstream.digits_value]
    ring

theorem digits_value_cons (c : Char) (ds : List Char) :
    ifstream.digits_value (c :: ds)
      = digit_value c * 10 ^ ds.length + ifstream.digits_value ds := by
  have := foldl_digits ds (0 * 10 + digit_value c)
  simp only [ifstream.digits_value, List.foldl_cons] at this ⊢
  rw [this]
  ring

theorem to_string_loop_isdigit (fuel : Nat) :
    ∀ (n : Nat) (acc : List Char), (∀ c ∈ acc, isdigit c = true) →
      ∀ c ∈ to_string_loop fuel n acc, isdigit c = true := by
  induction fuel with
  | zero => intro n acc h; simpa [to_string_loop] using h
  | succ fuel ih =>
    intro n acc h
    have hd : isdigit (Char.ofNat (48 + n % 10)) = true :=
      isdigit_digit_char _ (Nat.mod_lt n (by decide))
    have hacc : ∀ c ∈ Char.ofNat (48 + n % 10) :: acc, isdigit c = true := by
      intro c hc
      rcases List.mem_cons.1 hc with h1 | h1
      · rw [h1]; exact hd
      · exact h c h1
    simp only [to_string_loop]
    split_ifs
    · exact hacc
    · exact ih _ _ hacc

theorem to_string_loop_ne_nil (fuel n : Nat) (acc : List Char) :
    to_string_loop (fuel + 1) n acc ≠ [] := by
  induction fuel generalizing n acc with
  | zero => simp only [to_string_loop]; split_ifs <;> simp
  | succ fuel ih =>
    rw [to_string_loop]
    split_ifs
    · simp
    · exact ih _ _

theorem to_string_loop_value (fuel : Nat) :
    ∀ (n : Nat) (acc : List Char), n < fuel →
      ifstream.digits_value (to_string_loop fuel n acc)
        = n * 10 ^ acc.length + ifstream.digits_value acc := by
  induction fuel with
  | zero => intro n acc h; omega
  | succ fuel ih =>
    intro n acc h
    have hdv := digit_value_digit_char (n % 10) (Nat.mod_lt n (by decide))
    simp only [to_string_loop]
    split_ifs with h0
    · rw [digits_value_cons, hdv]
      have : n % 10 = n := by omega
      rw [this]
    · have hlt : n / 10 < fuel := by omega
      rw [ih (n / 10) _ hlt, digits_value_cons, hdv, List.length_cons, pow_succ]
      have hn : n = 10 * (n / 10) + n % 10 := (Nat.div_add_mod n 10).symm
      nth_rewrite 3 [hn]
      ring

theorem to_string_isdigit (n : Nat) : ∀ c ∈ to_string n, isdigit c = true :=
  to_string_loop_isdigit _ _ _ (by simp)

theorem to_string_ne_nil (n : Nat) : to_string n ≠ [] :=
  to_string_loop_ne_nil _ _ _

theorem digits_value_to_string (n : Nat) : ifstream.digits_value (to_string n) = n := by
  have := to_string_loop_value (n + 1) n [] (by omega)
  simpa [to_string, ifstream.digits_value] using this

/-! ## Numeric extraction of a digit run -/

theorem takeWhile_dropWhile_append {α : Type} (p : α → Bool) (w rest : List α)
    (hw : ∀ c ∈ w, p c = true) (hrest : ∀ c ∈ rest.head?, ¬ p c = true) :
    (w ++ rest).takeWhile p = w ∧ (w ++ rest).dropWhile p = rest := by
  induction w with
  | nil =>
    cases rest with
    | nil => simp
    | cons c r =>
      have hc : ¬ p c = true := hrest c (by simp)
      simp [List.takeWhile_cons, List.dropWhile_cons, hc]
  | cons a w ih =>
    have ha : p a = true := hw a (by simp)
    have hw1 : ∀ c ∈ w, p c = true := fun c hc => hw c (by simp [hc])
    obtain ⟨h1, h2⟩ := ih hw1
    simp [List.takeWhile_cons, List.dropWhile_cons, ha, h1, h2]

theorem num_field_digits (ds rest : List Char) (hds : ds ≠ [])
    (hall : ∀ c ∈ ds, isdigit c = true) (hrest : ∀ c ∈ rest.head?, ¬ isdigit c = true) :
    ifstream.num_field (ds ++ rest) = (false, ds, rest) := by
  obtain ⟨h1, h2⟩ := takeWhile_dropWhile_append isdigit ds rest hall hrest
  cases ds with
  | nil => exact absurd rfl hds
  | cons c t =>
    obtain ⟨hm, hp⟩ := not_sign_of_isdigit c (hall c (by simp))
    simp only [List.cons_append] at h1 h2 ⊢
    simp only [ifstream.num_field, hm, hp, if_false, h1, h2]

theorem dropWhile_isspace_digits (ds rest : List Char) (hds : ds ≠ [])
    (hall : ∀ c ∈ ds, isdigit c = true) :
    (ds ++ rest).dropWhile isspace = ds ++ rest := by
  cases ds with
  | nil => exact absurd rfl hds
  | cons c t =>
    have hc : ¬ isspace c = true := not_isspace_of_isdigit c (hall c (by simp))
    simp [List.dropWhile_cons, hc]

/-- Reading an `unsigned` where, after whitespace, a run of digits stands. -/
theorem extract_unsigned_digits (cs ds rest : List Char) (old : Nat)
    (hcs : cs.dropWhile isspace = ds ++ rest) (hds : ds ≠ [])
    (hall : ∀ c ∈ ds, isdigit c = true) (hrest : ∀ c ∈ rest.head?, ¬ isdigit c = true) :
    ifstream.extract_unsigned ⟨cs, false, false⟩ old =
      if ifstream.digits_value ds > ifstream.UINT_MAX then
        (⟨rest, rest.isEmpty, true⟩, ifstream.UINT_MAX)
      else (⟨rest, rest.isEmpty, false⟩, ifstream.digits_value ds) := by
  have hne : ds ++ rest ≠ [] := by simp [hds]
  have hnf := num_field_digits ds rest hds hall hrest
  simp only [ifstream.extract_unsigned, ifstream.sentry, ifstream.good, hcs]
  simp [hne, hds, hnf]

/-- Reading an `int` where, after whitespace, a run of digits stands. -/
theorem extract_int_digits (cs ds rest : List Char) (old : Int)
    (hcs : cs.dropWhile isspace = ds ++ rest) (hds : ds ≠ [])
    (hall : ∀ c ∈ ds, isdigit c = true) (hrest : ∀ c ∈ rest.head?, ¬ isdigit c = true)
    (hmax : (ifstream.digits_value ds : Int) ≤ ifstream.INT_MAX) :
    ifstream.extract_int ⟨cs, false, false⟩ old =
      (⟨rest, rest.isEmpty, false⟩, (ifstream.digits_value ds : Int)) := by
  have hne : ds ++ rest ≠ [] := by simp [hds]
  have h1 : ¬ ((ifstream.digits_value ds : Int) < ifstream.INT_MIN) := by
    simp only [ifstream.INT_MIN]; omega
  have h2 : ¬ (ifstream.INT_MAX < (ifstream.digits_value ds : Int)) := not_lt.2 hmax
  have hnf := num_field_digits ds rest hds hall hrest
  simp only [ifstream.extract_int, ifstream.sentry, ifstream.good, hcs]
  simp [hne, hds, hnf, h1, h2]

/-! ## `led::get_value` -/

theorem sentry_false_failbit (s s1 : ifstream) (h : s.sentry = (s1, false)) :
    s1.failbit = true := by
  simp only [ifstream.sentry] at h
  split_ifs at h with h1 h2
  · rw [← (Prod.mk.inj h).1]
  · exact absurd (Prod.mk.inj h).2 (by simp)
  · rw [← (Prod.mk.inj h).1]

theorem sentry_true_eq (s s1 : ifstream) (h : s.sentry = (s1, true)) :
    s.good = true ∧ s1 = { s with buf := s.buf.dropWhile isspace } ∧
      s.buf.dropWhile isspace ≠ [] := by
  simp only [ifstream.sentry] at h
  split_ifs at h with h1 h2
  · exact absurd (Prod.mk.inj h).2 (by simp)
  · refine ⟨h1, (Prod.mk.inj h).1.symm, ?_⟩
    intro h0; simp [h0] at h2
  · exact absurd (Prod.mk.inj h).2 (by simp)

theorem num_field_split (buf : List Char) :
    ∃ sgn : List Char, (sgn = [] ∨ sgn = ['+'] ∨ sgn = ['-']) ∧
      buf = sgn ++ (ifstream.num_field buf).2.1 ++ (ifstream.num_field buf).2.2 ∧
      ((ifstream.num_field buf).1 = true ↔ sgn = ['-']) ∧
      (∀ c ∈ (ifstream.num_field buf).2.1, isdigit c = true) ∧
      (∀ c ∈ (ifstream.num_field buf).2.2.head?, ¬ isdigit c = true) := by
  have hall : ∀ l : List Char, ∀ c ∈ l.takeWhile isdigit, isdigit c = true :=
    fun l c hc => List.mem_takeWhile_imp hc
  have hhead : ∀ l : List Char, ∀ c ∈ (l.dropWhile isdigit).head?, ¬ isdigit c = true := by
    intro l c hc
    have h2 := List.head?_dropWhile_not isdigit l
    rw [Option.mem_def] at hc
    rw [hc] at h2
    simpa using h2
  cases buf with
  | nil => exact ⟨[], by simp [ifstream.num_field]⟩
  | cons c t =>
    by_cases hm : c = '-'
    · have hnf : ifstream.num_field (c :: t) = (true, t.takeWhile isdigit, t.dropWhile isdigit) := by
        simp [ifstream.num_field, hm]
      rw [hnf]
      exact ⟨['-'], by simp, by simp [hm, List.takeWhile_append_dropWhile], by simp,
        hall t, hhead t⟩
    · by_cases hp : c = '+'
      · have hnf : ifstream.num_field (c :: t)
            = (false, t.takeWhile isdigit, t.dropWhile isdigit) := by
          simp [ifstream.num_field, hm, hp]
        rw [hnf]
        exact ⟨['+'], by simp, by simp [hp, List.takeWhile_append_dropWhile], by simp,
          hall t, hhead t⟩
      · have hnf : ifstream.num_field (c :: t)
            = (false, (c :: t).takeWhile isdigit, (c :: t).dropWhile isdigit) := by
          simp [ifstream.num_field, hm, hp]
        rw [hnf]
        exact ⟨[], by simp, by simp [List.takeWhile_append_dropWhile], by simp,
          hall (c :: t), hhead (c :: t)⟩

/-- What `get_value` can return: the sentinel, or the value of the signed decimal numeral
that stands in the file after leading whitespace, which then lies in the range of `int`. -/
theorem get_value_cases (file : attr_file) :
    get_value file = -1 ∨
    (file.readable = true ∧
      ∃ ws sgn ds rest : List Char,
        file.data = ws ++ sgn ++ ds ++ rest ∧ (∀ c ∈ ws, isspace c = true) ∧
        (sgn = [] ∨ sgn = ['+'] ∨ sgn = ['-']) ∧ ds ≠ [] ∧ (∀ c ∈ ds, isdigit c = true) ∧
        (∀ c ∈ rest.head?, ¬ isdigit c = true) ∧
        get_value file = (if sgn = ['-'] then -(ifstream.digits_value ds : Int)
          else (ifstream.digits_value ds : Int)) ∧
        ifstream.INT_MIN ≤ get_value file ∧ get_value file ≤ ifstream.INT_MAX) := by
  by_cases hr : file.readable = true
  swap
  · left; simp [get_value, attr_file.input, hr, ifstream.ofFile, ifstream.good, ifstream.fail]
  · have hgv : get_value file =
        if (ifstream.extract_int ⟨file.data, false, false⟩ (-1)).1.failbit = true then -1
        else (ifstream.extract_int ⟨file.data, false, false⟩ (-1)).2 := by
      simp [get_value, attr_file.input, hr, ifstream.ofFile, ifstream.good, ifstream.fail]
    rw [hgv]
    cases hsen : ifstream.sentry ⟨file.data, false, false⟩ with
    | mk s1 ok =>
      cases ok with
      | false =>
        left
        have hf := sentry_false_failbit _ _ hsen
        simp [ifstream.extract_int, hsen, hf]
      | true =>
        obtain ⟨_, hs1, hne⟩ := sentry_true_eq _ _ hsen
        obtain ⟨sgn, hsgn, hbuf, hneg, hdig, hrest⟩ :=
          num_field_split (file.data.dropWhile isspace)
        simp only [ifstream.extract_int, hsen, hs1]
        generalize hnf : ifstream.num_field (List.dropWhile isspace file.data) = nf at *
        obtain ⟨negative, ds, rest⟩ := nf
        simp only at hbuf hneg hdig hrest ⊢
        by_cases hds : ds = []
        · left; simp [hds]
        · by_cases hlo : (if negative = true then -(ifstream.digits_value ds : Int)
              else (ifstream.digits_value ds : Int)) < ifstream.INT_MIN
          · left; simp [hds, hlo]
          · by_cases hhi : (if negative = true then -(ifstream.digits_value ds : Int)
                else (ifstream.digits_value ds : Int)) > ifstream.INT_MAX
            · left; simp [hds, hlo, hhi]
            · right
              refine ⟨hr, file.data.takeWhile isspace, sgn, ds, rest, ?_, ?_, hsgn, hds, hdig,
                hrest, ?_, ?_, ?_⟩
              · have := List.takeWhile_append_dropWhile isspace file.data
                rw [hbuf] at this
                simpa [List.append_assoc] using this.symm
              · intro c hc; exact List.mem_takeWhile_imp hc
              · simp only [List.isEmpty_eq_true, hds, if_false, hlo, hhi]
                by_cases hn : negative = true
                · simp [hn, hneg.1 hn]
                · have : ¬ sgn = ['-'] := fun h => hn (hneg.2 h)
                  simp [hn, this]
              · simp only [List.isEmpty_eq_true, hds, if_false, hlo, hhi]
                simp only [Bool.false_eq_true, if_false]
                exact not_lt.1 hlo
              · simp only [List.isEmpty_eq_true, hds, if_false, hlo, hhi]
                simp only [Bool.false_eq_true, if_false]
                exact not_lt.1 hhi

theorem get_value_le_INT_MAX (file : attr_file) : get_value file ≤ ifstream.INT_MAX := by
  rcases get_value_cases file with h | ⟨_, _, _, _, _, _, _, _, _, _, _, _, _, h⟩
  · rw [h]; decide
  · exact h

theorem get_value_ge_INT_MIN (file : attr_file) : ifstream.INT_MIN ≤ get_value file := by
  rcases get_value_cases file with h | ⟨_, _, _, _, _, _, _, _, _, _, _, _, h, _⟩
  · rw [h]; decide
  · exact h

/-- Reading back the decimal text of a value that fits an `int`. -/
theorem get_value_to_string (v : Nat) (w : Bool) (hv : (v : Int) ≤ ifstream.INT_MAX) :
    get_value ⟨to_string v, true, w⟩ = v := by
  have hcs : (to_string v).dropWhile isspace = to_string v ++ [] := by
    have := dropWhile_isspace_digits (to_string v) [] (to_string_ne_nil v) (to_string_isdigit v)
    simpa using this
  have hex := extract_int_digits (to_string v) (to_string v) [] (-1) hcs (to_string_ne_nil v)
    (to_string_isdigit v) (by simp) (by rw [digits_value_to_string]; exact hv)
  simp [get_value, attr_file.input, ifstream.ofFile, ifstream.good, ifstream.fail, hex,
    digits_value_to_string]

/-! ## Writing and reading back colour intensities -/

theorem foldl_intensity_text (values : List Nat) :
    ∀ ss : List Char, values.foldl (fun ss value => ss ++ ' ' :: to_string value) ss
      = ss ++ intensity_text values := by
  induction values with
  | nil => intro ss; simp [intensity_text]
  | cons v vs ih =>
    intro ss
    simp only [intensity_text, List.foldl_cons]
    rw [ih (ss ++ ' ' :: to_string v), ih ([] ++ ' ' :: to_string v)]
    simp [intensity_text]

theorem intensity_text_cons (v : Nat) (vs : List Nat) :
    intensity_text (v :: vs) = ' ' :: (to_string v ++ intensity_text vs) := by
  have := foldl_intensity_text vs ([] ++ ' ' :: to_string v)
  simp only [intensity_text, List.foldl_cons] at this ⊢
  rw [this]
  simp

theorem intensity_text_head (vs : List Nat) :
    ∀ c ∈ (intensity_text vs).head?, ¬ isdigit c = true := by
  cases vs with
  | nil => simp [intensity_text]
  | cons v vs =>
    intro c hc
    rw [intensity_text_cons] at hc
    simp only [List.head?_cons, Option.mem_def, Option.some.injEq] at hc
    rw [← hc]
    decide

theorem color_intensity_loop_not_good (fuel : Nat) (s : ifstream) (ci : List Nat)
    (h : s.good = false) : color_intensity_loop fuel s ci = ci := by
  cases fuel <;> simp [color_intensity_loop, h]

theorem color_intensity_loop_text (vs : List Nat) :
    ∀ (fuel : Nat) (ci : List Nat), (∀ v ∈ vs, v ≤ ifstream.UINT_MAX) →
      (intensity_text vs).length < fuel →
      color_intensity_loop fuel ⟨intensity_text vs, false, false⟩ ci = ci ++ vs := by
  induction vs with
  | nil =>
    intro fuel ci _ hf
    cases fuel with
    | zero => omega
    | succ fuel =>
      simp [color_intensity_loop, intensity_text, ifstream.good, ifstream.extract_unsigned,
        ifstream.sentry, ifstream.fail]
  | cons v vs ih =>
    intro fuel ci hr hf
    cases fuel with
    | zero => omega
    | succ fuel =>
      have hv : v ≤ ifstream.UINT_MAX := hr v (by simp)
      have hvs : ∀ u ∈ vs, u ≤ ifstream.UINT_MAX := fun u hu => hr u (by simp [hu])
      have hcs : (intensity_text (v :: vs)).dropWhile isspace
          = to_string v ++ intensity_text vs := by
        rw [intensity_text_cons]
        have hsp : isspace ' ' = true := by decide
        rw [List.dropWhile_cons_of_pos hsp]
        exact dropWhile_isspace_digits _ _ (to_string_ne_nil v) (to_string_isdigit v)
      have hex := extract_unsigned_digits (intensity_text (v :: vs)) (to_string v)
        (intensity_text vs) 0 hcs (to_string_ne_nil v) (to_string_isdigit v)
        (intensity_text_head vs)
      rw [digits_value_to_string, if_neg (by omega)] at hex
      have hlen : (intensity_text vs).length < fuel := by
        rw [intensity_text_cons] at hf
        simp only [List.length_cons, List.length_append] at hf
        omega
      simp only [color_intensity_loop, ifstream.good, hex, ifstream.fail]
      simp only [Bool.not_false, Bool.and_self, if_true, Bool.false_eq_true, if_false]
      cases vs with
      | nil =>
        simp [intensity_text, color_intensity_loop_not_good, ifstream.good]
      | cons u us =>
        have hne : (intensity_text (u :: us)).isEmpty = false := by
          rw [intensity_text_cons]; rfl
        rw [hne, ih fuel (ci ++ [v]) hvs hlen]
        simp

/-! ## Claims on the numeric attributes -/

/-- C3: for every device and every vector of `unsigned` values as long as the list of colour
names, writing it with `color_intensity(values)` to a plain read/write `multi_intensity` file
succeeds and `color_intensity()` then returns the same values in the same order. -/
theorem color_intensity_round_trip (colors : List (List Char)) (d : led_dir)
    (values : List Nat) (hlen : values.length = colors.length)
    (hrange : ∀ v ∈ values, v ≤ ifstream.UINT_MAX)
    (hplain : d.multi_intensity.readable = true ∧ d.multi_intensity.writable = true) :
    (set_color_intensity d values).1 = 0 ∧
    color_intensity colors (set_color_intensity d values).2 = values := by
  obtain ⟨hr, hw⟩ := hplain
  refine ⟨by simp [set_color_intensity, set_value, hw], ?_⟩
  cases colors with
  | nil =>
    have : values = [] := List.length_eq_zero.1 (by simpa using hlen)
    simp [color_intensity, this]
  | cons c cs =>
    simp only [color_intensity, set_color_intensity, set_value, hw, if_true, attr_file.input, hr,
      ifstream.ofFile, List.isEmpty_cons, Bool.false_eq_true, if_false]
    rw [color_intensity_loop_text values _ [] hrange (by omega)]
    simp

/-- Witness of C3: three channels, the values 255, 0 and 7. -/
theorem color_intensity_round_trip_witness :
    (set_color_intensity
        ⟨⟨[], true, true⟩, ⟨[], true, true⟩, ⟨[], true, true⟩, ⟨[], true, true⟩, none⟩
        [255, 0, 7]).1 = 0 ∧
    color_intensity ["red".toList, "green".toList, "blue".toList]
      (set_color_intensity
        ⟨⟨[], true, true⟩, ⟨[], true, true⟩, ⟨[], true, true⟩, ⟨[], true, true⟩, none⟩
        [255, 0, 7]).2 = [255, 0, 7] :=
  color_intensity_round_trip ["red".toList, "green".toList, "blue".toList]
    ⟨⟨[], true, true⟩, ⟨[], true, true⟩, ⟨[], true, true⟩, ⟨[], true, true⟩, none⟩
    [255, 0, 7] (by decide) (by decide) (by decide)

/-- C4: for every value `v` with `0 <= v <= max_brightness`, writing it with `brightness(v)`
to a plain read/write brightness file returns 0 and a following `brightness()` returns `v`. -/
theorem brightness_round_trip (d : led_dir) (v : Nat)
    (hv : (v : Int) ≤ max_brightness d)
    (hplain : d.brightness.readable = true ∧ d.brightness.writable = true) :
    (set_brightness d v).1 = 0 ∧ brightness (set_brightness d v).2 = (v : Int) := by
  obtain ⟨hr, hw⟩ := hplain
  have hmax : (v : Int) ≤ ifstream.INT_MAX :=
    le_trans hv (get_value_le_INT_MAX d.max_brightness)
  refine ⟨by simp [set_brightness, set_value, hw], ?_⟩
  simp only [brightness, set_brightness, set_value, hw, if_true]
  rw [hr]
  exact get_value_to_string v true hmax

/-- Witness of C4: maximum 255, the value 128 written over an old 0. -/
theorem brightness_round_trip_witness :
    (set_brightness
        ⟨⟨"0\n".toList, true, true⟩, ⟨"255\n".toList, true, false⟩, ⟨[], false, false⟩,
          ⟨[], true, true⟩, none⟩ 128).1 = 0 ∧
    brightness (set_brightness
        ⟨⟨"0\n".toList, true, true⟩, ⟨"255\n".toList, true, false⟩, ⟨[], false, false⟩,
          ⟨[], true, true⟩, none⟩ 128).2 = (128 : Int) :=
  brightness_round_trip
    ⟨⟨"0\n".toList, true, true⟩, ⟨"255\n".toList, true, false⟩, ⟨[], false, false⟩,
      ⟨[], true, true⟩, none⟩ 128 (by decide) (by decide)

/-- C6, as worded, fails on a brightness file holding `-5`: `brightness()` returns -5, which
is neither a non-negative integer nor the sentinel -1, and is less than -1. -/
theorem brightness_negative_content :
    brightness ⟨⟨"-5\n".toList, true, true⟩, ⟨"255\n".toList, true, false⟩,
      ⟨[], false, false⟩, ⟨[], true, true⟩, none⟩ = -5 ∧
    max_brightness ⟨⟨"0\n".toList, true, true⟩, ⟨"-5\n".toList, true, false⟩,
      ⟨[], false, false⟩, ⟨[], true, true⟩, none⟩ = -5 ∧
    ¬ ((-1 : Int) ≤ brightness ⟨⟨"-5\n".toList, true, true⟩, ⟨"255\n".toList, true, false⟩,
      ⟨[], false, false⟩, ⟨[], true, true⟩, none⟩) := by
  decide

/-- C6, amended: for every state of the attribute file, `brightness()` and `max_brightness()`
return -1 when the file cannot be read; otherwise they return -1 or the value of the signed
decimal numeral that stands in the file after leading whitespace (text after the numeral is
ignored), so a result other than -1 is parsed from the file and may be negative; the result
always lies in the range of `int`, and it is never less than -1 when the file holds no
minus sign. -/
theorem brightness_sentinel_or_parsed (d : led_dir) (file : attr_file) (r : Int)
    (h : (file = d.brightness ∧ r = brightness d) ∨
      (file = d.max_brightness ∧ r = max_brightness d)) :
    (file.readable = false → r = -1) ∧
    (r = -1 ∨
      ∃ ws sgn ds rest : List Char,
        file.data = ws ++ sgn ++ ds ++ rest ∧ (∀ c ∈ ws, isspace c = true) ∧
        (sgn = [] ∨ sgn = ['+'] ∨ sgn = ['-']) ∧ ds ≠ [] ∧ (∀ c ∈ ds, isdigit c = true) ∧
        (∀ c ∈ rest.head?, ¬ isdigit c = true) ∧
        r = (if sgn = ['-'] then -(ifstream.digits_value ds : Int)
          else (ifstream.digits_value ds : Int))) ∧
    ifstream.INT_MIN ≤ r ∧ r ≤ ifstream.INT_MAX ∧
    ((∀ c ∈ file.data, c ≠ '-') → -1 ≤ r) := by
  have hr : r = get_value file := by
    rcases h with ⟨h1, h2⟩ | ⟨h1, h2⟩
    · rw [h1, h2]; rfl
    · rw [h1, h2]; rfl
  subst hr
  refine ⟨?_, ?_, get_value_ge_INT_MIN file, get_value_le_INT_MAX file, ?_⟩
  · intro hnr
    simp [get_value, attr_file.input, hnr, ifstream.ofFile, ifstream.good, ifstream.fail]
  · rcases get_value_cases file with h1 | ⟨_, ws, sgn, ds, rest, h1, h2, h3, h4, h5, h6, h7, _, _⟩
    · left; exact h1
    · right; exact ⟨ws, sgn, ds, rest, h1, h2, h3, h4, h5, h6, h7⟩
  · intro hno
    rcases get_value_cases file with h1 | ⟨_, ws, sgn, ds, rest, h1, _, _, _, _, _, h7, _, _⟩
    · rw [h1]
    · have hs : ¬ sgn = ['-'] := by
        intro hs
        apply hno '-' _ rfl
        rw [h1, hs]
        simp
      rw [h7, if_neg hs]
      have : (0 : Int) ≤ (ifstream.digits_value ds : Int) := Int.ofNat_nonneg _
      omega

/-- Witness of the amended C6: a brightness file holding `12`. -/
theorem brightness_sentinel_or_parsed_witness :
    brightness ⟨⟨"12\n".toList, true, true⟩, ⟨"255\n".toList, true, false⟩,
      ⟨[], false, false⟩, ⟨[], true, true⟩, none⟩ = 12 ∧
    ifstream.INT_MIN ≤ (12 : Int) ∧ (12 : Int) ≤ ifstream.INT_MAX :=
  ⟨by decide,
    (brightness_sentinel_or_parsed
      ⟨⟨"12\n".toList, true, true⟩, ⟨"255\n".toList, true, false⟩,
        ⟨[], false, false⟩, ⟨[], true, true⟩, none⟩
      ⟨"12\n".toList, true, true⟩ 12 (Or.inl ⟨rfl, by decide⟩)).2.2.1,
    (brightness_sentinel_or_parsed
      ⟨⟨"12\n".toList, true, true⟩, ⟨"255\n".toList, true, false⟩,
        ⟨[], false, false⟩, ⟨[], true, true⟩, none⟩
      ⟨"12\n".toList, true, true⟩ 12 (Or.inl ⟨rfl, by decide⟩)).2.2.2.1⟩

/-! ## `led::color_intensity ()` against the tokens -/

theorem token_decomp (cs : List Char) :
    (cs.dropWhile isspace = [] ∧ tokens cs = []) ∨
    (∃ w rest : List Char, w ≠ [] ∧ cs.dropWhile isspace = w ++ rest ∧
      (∀ c ∈ w, ¬ isspace c = true) ∧ (∀ c ∈ rest.head?, isspace c = true) ∧
      tokens cs = w :: tokens rest ∧ rest.length < cs.length) := by
  by_cases h : cs.dropWhile isspace = []
  · left
    exact ⟨h, by rw [← tokens_dropWhile, h, tokens_nil]⟩
  · right
    obtain ⟨hw, ht⟩ := tokens_split _ h (head_dropWhile_isspace cs)
    refine ⟨(cs.dropWhile isspace).takeWhile (fun c => !isspace c),
      (cs.dropWhile isspace).dropWhile (fun c => !isspace c), hw,
      (List.takeWhile_append_dropWhile _ _).symm, ?_, ?_, ?_, ?_⟩
    · intro c hc
      have := List.mem_takeWhile_imp hc
      simpa using this
    · intro c hc
      have h2 := List.head?_dropWhile_not (fun c => !isspace c) (cs.dropWhile isspace)
      rw [Option.mem_def] at hc
      rw [hc] at h2
      simpa using h2
    · rw [← tokens_dropWhile cs]; exact ht
    · exact lt_of_lt_of_le (length_dropWhile_lt _ _ hw) (length_dropWhile_le _ _)

theorem color_intensity_loop_extends (fuel : Nat) :
    ∀ (s : ifstream) (ci : List Nat), ci <+: color_intensity_loop fuel s ci := by
  induction fuel with
  | zero => intro s ci; simp [color_intensity_loop]
  | succ fuel ih =>
    intro s ci
    simp only [color_intensity_loop]
    split_ifs with h1 h2
    · exact List.prefix_refl ci
    · exact List.IsPrefix.trans (List.prefix_append ci _) (ih _ _)
    · exact List.prefix_refl ci

/-- Reading an `unsigned` fails where, after whitespace, the text is over or goes on with a
character that is neither a digit nor a sign. -/
theorem extract_unsigned_fail (cs : List Char) (old : Nat)
    (h : ∀ c ∈ (cs.dropWhile isspace).head?, ¬ isdigit c = true ∧ c ≠ '+' ∧ c ≠ '-') :
    (ifstream.extract_unsigned ⟨cs, false, false⟩ old).1.failbit = true := by
  cases hb : cs.dropWhile isspace with
  | nil => simp [ifstream.extract_unsigned, ifstream.sentry, ifstream.good, hb]
  | cons c t =>
    rw [hb] at h
    obtain ⟨hd, hp, hm⟩ := h c (by simp)
    simp [ifstream.extract_unsigned, ifstream.sentry, ifstream.good, hb, ifstream.num_field,
      hp, hm, List.takeWhile_cons, hd]

theorem color_intensity_loop_fail (fuel : Nat) (cs : List Char) (ci : List Nat)
    (h : (ifstream.extract_unsigned ⟨cs, false, false⟩ 0).1.failbit = true) :
    color_intensity_loop fuel ⟨cs, false, false⟩ ci = ci := by
  cases fuel with
  | zero => rfl
  | succ fuel =>
    simp only [color_intensity_loop, ifstream.good, ifstream.fail, h]
    simp

theorem token_unsigned_eq_some (t : List Char) (v : Nat) (h : token_unsigned t = some v) :
    t ≠ [] ∧ (∀ c ∈ t, isdigit c = true) ∧ ifstream.digits_value t ≤ ifstream.UINT_MAX ∧
      v = ifstream.digits_value t := by
  simp only [token_unsigned] at h
  split_ifs at h with hc
  simp only [Bool.and_eq_true, Bool.not_eq_true', decide_eq_true_eq, List.all_eq_true] at hc
  obtain ⟨⟨h1, h2⟩, h3⟩ := hc
  refine ⟨?_, h2, h3, (Option.some.inj h).symm⟩
  intro h0; simp [h0] at h1

theorem token_unsigned_eq_none (t : List Char) (h : token_unsigned t = none) (ht : t ≠ [])
    (hall : ∀ c ∈ t, isdigit c = true) : ifstream.digits_value t > ifstream.UINT_MAX := by
  simp only [token_unsigned] at h
  split_ifs at h with hc
  simp only [Bool.and_eq_true, Bool.not_eq_true', decide_eq_true_eq, List.all_eq_true,
    not_and, not_le] at hc
  refine hc ⟨?_, hall⟩
  cases t with
  | nil => exact absurd rfl ht
  | cons a b => rfl

/-- The loop of `color_intensity ()` on a good stream, against the tokens of the unread text:
the values of the leading numeral tokens are always read first; nothing more is read when
the first other token is a run of digits (a value out of range) or begins with a character
that is neither a digit nor a sign; and when it begins with digits in range followed by
such a character, the value of these digits is read too and reading stops there. -/
theorem color_intensity_loop_tokens (fuel : Nat) :
    ∀ (cs : List Char) (ci : List Nat), cs.length < fuel →
      (ci ++ leading_values (tokens cs)) <+: color_intensity_loop fuel ⟨cs, false, false⟩ ci ∧
      ((∀ t, stop_token (tokens cs) = some t →
          (∀ c ∈ t, isdigit c = true) ∨
          (∀ c ∈ t.head?, ¬ isdigit c = true ∧ c ≠ '+' ∧ c ≠ '-')) →
        color_intensity_loop fuel ⟨cs, false, false⟩ ci = ci ++ leading_values (tokens cs)) ∧
      (∀ (ds : List Char) (c : Char) (r : List Char),
        stop_token (tokens cs) = some (ds ++ c :: r) → ds ≠ [] →
        (∀ x ∈ ds, isdigit x = true) → ifstream.digits_value ds ≤ ifstream.UINT_MAX →
        ¬ isdigit c = true → c ≠ '+' → c ≠ '-' →
        color_intensity_loop fuel ⟨cs, false, false⟩ ci
          = ci ++ leading_values (tokens cs) ++ [ifstream.digits_value ds]) := by
  induction fuel with
  | zero => intro cs ci h; omega
  | succ fuel ih =>
    intro cs ci hlen
    rcases token_decomp cs with ⟨hd, ht⟩ | ⟨w, rest, hw, hd, hns, hrest, ht, hlt⟩
    · -- only whitespace is left
      have hfail := extract_unsigned_fail cs 0 (by rw [hd]; simp)
      rw [ht, color_intensity_loop_fail _ _ _ hfail]
      simp [leading_values, stop_token]
    · rw [ht]
      cases htu : token_unsigned w with
      | some v =>
        obtain ⟨_, hall, hmax, hv⟩ := token_unsigned_eq_some w v htu
        have hrest1 : ∀ c ∈ rest.head?, ¬ isdigit c = true := fun c hc hdc =>
          not_isspace_of_isdigit c hdc (hrest c hc)
        have hex := extract_unsigned_digits cs w rest 0 hd hw hall hrest1
        rw [if_neg (by omega), ← hv] at hex
        have hstep : color_intensity_loop (fuel + 1) ⟨cs, false, false⟩ ci
            = color_intensity_loop fuel ⟨rest, rest.isEmpty, false⟩ (ci ++ [v]) := by
          simp only [color_intensity_loop, ifstream.good, hex, ifstream.fail]
          simp
        rw [hstep]
        simp only [leading_values, stop_token, htu]
        cases rest with
        | nil =>
          simp [color_intensity_loop_not_good, ifstream.good, tokens_nil, leading_values,
            stop_token]
        | cons a rest1 =>
          have hih := ih (a :: rest1) (ci ++ [v]) (by omega)
          simp only [List.isEmpty_cons, List.append_assoc, List.singleton_append] at hih ⊢
          exact hih
      | none =>
        simp only [leading_values, stop_token, htu, List.append_nil]
        refine ⟨color_intensity_loop_extends _ _ _, ?_, ?_⟩
        · intro hcond
          apply color_intensity_loop_fail
          rcases hcond w rfl with hall | hhead
          · -- a run of digits out of range
            have hov := token_unsigned_eq_none w htu hw hall
            have hrest1 : ∀ c ∈ rest.head?, ¬ isdigit c = true := fun c hc hdc =>
              not_isspace_of_isdigit c hdc (hrest c hc)
            have hex := extract_unsigned_digits cs w rest 0 hd hw hall hrest1
            rw [if_pos hov] at hex
            rw [hex]
          · apply extract_unsigned_fail
            rw [hd]
            cases w with
            | nil => exact absurd rfl hw
            | cons a w1 => simpa using hhead
        · intro ds c r hstop hds hall hmax hcd hcp hcm
          have hwe : w = ds ++ c :: r := Option.some.inj hstop
          have hd2 : cs.dropWhile isspace = ds ++ (c :: (r ++ rest)) := by
            rw [hd, hwe]; simp
          have hex := extract_unsigned_digits cs ds (c :: (r ++ rest)) 0 hd2 hds hall
            (by simpa using hcd)
          rw [if_neg (by omega)] at hex
          have hcs : ¬ isspace c = true := hns c (by rw [hwe]; simp)
          have hfail := extract_unsigned_fail (c :: (r ++ rest)) 0
            (by
              rw [List.dropWhile_cons_of_neg hcs]
              intro x hx
              simp only [List.head?_cons, Option.mem_def, Option.some.injEq] at hx
              rw [← hx]
              exact ⟨hcd, hcp, hcm⟩)
          simp only [color_intensity_loop, ifstream.good, hex, ifstream.fail]
          simp only [List.isEmpty_cons, Bool.not_false, Bool.and_self, if_true,
            Bool.false_eq_true, if_false]
          exact color_intensity_loop_fail _ _ _ hfail

/-- C5, as worded, fails on the content `1 2x 3` of a multicolour device: the token `2x` is
the first one that is no unsigned integer, so the reference definition yields `[1]`, while
`color_intensity()` reads the numeral `2` out of that token and returns `[1, 2]`. -/
theorem color_intensity_reads_inside_token :
    color_intensity ["red".toList, "green".toList, "blue".toList]
      ⟨⟨[], true, true⟩, ⟨[], true, false⟩, ⟨"1 2x 3".toList, true, true⟩, ⟨[], true, true⟩,
        none⟩ = [1, 2] ∧
    stated_color_intensity ["red".toList, "green".toList, "blue".toList] "1 2x 3".toList = [1] ∧
    color_intensity ["red".toList, "green".toList, "blue".toList]
      ⟨⟨[], true, true⟩, ⟨[], true, false⟩, ⟨"1 2x 3".toList, true, true⟩, ⟨[], true, true⟩,
        none⟩
      ≠ stated_color_intensity ["red".toList, "green".toList, "blue".toList]
          "1 2x 3".toList := by
  decide

/-- C5, amended: `color_intensity()` is empty for a device without colour channels, whatever
the file holds. Otherwise it reads numerals from the text, not whole tokens: its result always
starts with the values of the longest leading run of tokens that are unsigned decimal numerals
in range; it is exactly that run when no other token follows, or when the first other token
is a run of digits out of range or begins with a character that is neither a digit nor a sign
(so `1 2 x 3` yields `[1, 2]`); and when that token begins with digits in range followed by
such a character, the value of these digits is appended and reading stops there (so
`1 2x 3` yields `[1, 2]` too). No error is signalled. -/
theorem color_intensity_leading_numerals (colors : List (List Char)) (d : led_dir) :
    (colors = [] → color_intensity colors d = []) ∧
    (colors ≠ [] → d.multi_intensity.readable = true →
      leading_values (tokens d.multi_intensity.data) <+: color_intensity colors d ∧
      ((∀ t, stop_token (tokens d.multi_intensity.data) = some t →
          (∀ c ∈ t, isdigit c = true) ∨
          (∀ c ∈ t.head?, ¬ isdigit c = true ∧ c ≠ '+' ∧ c ≠ '-')) →
        color_intensity colors d = leading_values (tokens d.multi_intensity.data)) ∧
      (∀ (ds : List Char) (c : Char) (r : List Char),
        stop_token (tokens d.multi_intensity.data) = some (ds ++ c :: r) → ds ≠ [] →
        (∀ x ∈ ds, isdigit x = true) → ifstream.digits_value ds ≤ ifstream.UINT_MAX →
        ¬ isdigit c = true → c ≠ '+' → c ≠ '-' →
        color_intensity colors d
          = leading_values (tokens d.multi_intensity.data) ++ [ifstream.digits_value ds])) ∧
    color_intensity ["red".toList, "green".toList, "blue".toList]
      ⟨⟨[], true, true⟩, ⟨[], true, false⟩, ⟨"1 2 x 3".toList, true, true⟩, ⟨[], true, true⟩,
        none⟩ = [1, 2] := by
  refine ⟨?_, ?_, by decide⟩
  · intro h; simp [color_intensity, h]
  · intro hc hr
    have hne : colors.isEmpty = false := by
      cases colors with
      | nil => exact absurd rfl hc
      | cons a b => rfl
    have hci : color_intensity colors d
        = color_intensity_loop (d.multi_intensity.data.length + 1)
            ⟨d.multi_intensity.data, false, false⟩ [] := by
      simp [color_intensity, hne, attr_file.input, hr, ifstream.ofFile]
    rw [hci]
    have h := color_intensity_loop_tokens (d.multi_intensity.data.length + 1)
      d.multi_intensity.data [] (by omega)
    simpa using h

/-! ## The constructor -/

theorem parent_path_ne_nil_iff (name : List Char) : parent_path name ≠ [] ↔ '/' ∈ name := by
  constructor
  · intro h
    by_contra hno
    apply h
    have : name.reverse.dropWhile (fun c => c != '/') = [] := by
      rw [List.dropWhile_eq_nil_iff]
      intro c hc
      have hc1 : c ∈ name := List.mem_reverse.1 hc
      have : c ≠ '/' := fun h0 => hno (h0 ▸ hc1)
      simpa using this
    simp [parent_path, this]
  · intro h
    have hne : name.reverse.dropWhile (fun c => c != '/') ≠ [] := by
      intro h0
      rw [List.dropWhile_eq_nil_iff] at h0
      have := h0 '/' (List.mem_reverse.2 h)
      simp at this
    simp only [parent_path]
    have he : (name.reverse.dropWhile (fun c => c != '/')).isEmpty = false := by
      cases hx : name.reverse.dropWhile (fun c => c != '/') with
      | nil => exact absurd hx hne
      | cons a b => rfl
    rw [he]
    simp only [Bool.false_eq_true, if_false]
    split_ifs with h1
    · simp
    · intro h2
      apply h1
      have h3 := List.reverse_eq_nil_iff.1 h2
      rw [h3]; rfl

/-- C7: for every name that is empty or contains the path separator `/`, whatever the
filesystem holds, constructing a device handle fails: with `EINVAL` when the name is empty,
with `ENODEV` when the name contains `/`, which is when it has a parent path segment; no handle
is produced. -/
theorem led_rejects_empty_and_path_names (fs : sysfs) (name : List Char)
    (h : name = [] ∨ '/' ∈ name) :
    (name = [] → led.led fs name = .error EINVAL) ∧
    ('/' ∈ name → led.led fs name = .error ENODEV) ∧
    (parent_path name ≠ [] ↔ '/' ∈ name) ∧
    (∀ l : led, led.led fs name ≠ .ok l) := by
  have h1 : name = [] → led.led fs name = .error EINVAL := by
    intro h0; simp [led.led, h0]
  have h2 : '/' ∈ name → led.led fs name = .error ENODEV := by
    intro hs
    have hne : name ≠ [] := by intro h0; rw [h0] at hs; simp at hs
    have hp : parent_path name ≠ [] := (parent_path_ne_nil_iff name).2 hs
    simp [led.led, hne, hp]
  refine ⟨h1, h2, parent_path_ne_nil_iff name, ?_⟩
  intro l hl
  rcases h with h0 | hs
  · rw [h1 h0] at hl; exact Except.noConfusion hl
  · rw [h2 hs] at hl; exact Except.noConfusion hl

/-- Witness of C7: the name `../leds/led0` on a filesystem that holds a device `led0`. -/
theorem led_rejects_empty_and_path_names_witness :
    led.led
      ⟨["led0".toList],
        fun _ => some ⟨⟨[], true, true⟩, ⟨[], true, false⟩, ⟨[], false, false⟩,
          ⟨[], true, true⟩, none⟩, 0⟩
      "../leds/led0".toList = .error ENODEV :=
  (led_rejects_empty_and_path_names
    ⟨["led0".toList],
      fun _ => some ⟨⟨[], true, true⟩, ⟨[], true, false⟩, ⟨[], false, false⟩,
        ⟨[], true, true⟩, none⟩, 0⟩
    "../leds/led0".toList (Or.inr (by decide))).2.1 (by decide)

/-! ## The argument parser -/

theorem parse_colors_bad (bad : List Char)
    (hval : stoi bad = none ∨ ∃ v : Int, stoi bad = some v ∧ v < 0) :
    ∀ (args : List (List Char)) (colors : List Nat), bad ∈ args →
      parse_colors args colors = none := by
  intro args
  induction args with
  | nil => intro colors h; simp at h
  | cons a rest ih =>
    intro colors h
    simp only [parse_colors]
    cases hs : stoi a with
    | none => rfl
    | some val =>
      simp only
      by_cases hneg : val < 0
      · simp [hneg]
      · simp only [hneg, if_false]
        rcases List.mem_cons.1 h with h1 | h1
        · subst h1
          rcases hval with h2 | ⟨v, h2, h3⟩
          · rw [h2] at hs; exact Option.noConfusion hs
          · rw [h2] at hs
            have : v = val := Option.some.inj hs
            omega
        · exact ih _ h1

/-- C8, as worded, fails: the positional `12abc` is not the decimal text of an integer, and
yet the parser accepts it and produces a request with brightness 12; and with the help flag
an argument list with the positional `x` ends with status 0. -/
theorem parse_arguments_accepts_trailing_text :
    is_decimal_text "12abc".toList = false ∧
    parse_arguments false ["led0".toList, "12abc".toList]
      = .request { appargs_t.init with led_name := "led0".toList, brightness := 12 } ∧
    parse_arguments false ["-h".toList, "led0".toList, "x".toList] = .exit 0 [] := by
  decide

/-- C8, amended: for every argument list whose option scanning runs to its end (no help flag,
no option error) without the list or info flag, if for any positional that follows
`LED_NAME` the conversion `std::stoi` fails (after leading whitespace and an optional sign
no decimal digit follows, or the numeral is no `int`) or gives a negative value, parsing
prints `Error: Invalid argument.` and exits with status 1, and no request is produced. -/
theorem parse_arguments_rejects_bad_number (posixly_correct : Bool)
    (args : List (List Char)) (opt : appargs_t) (name : List Char) (nums : List (List Char))
    (bad : List Char)
    (hscan : scan_options posixly_correct args [] appargs_t.init = .done opt (name :: nums))
    (hlist : opt.list = false) (hinfo : opt.show_info = false) (hbad : bad ∈ nums)
    (hval : stoi bad = none ∨ ∃ v : Int, stoi bad = some v ∧ v < 0) :
    parse_arguments posixly_correct args = .exit 1 "Error: Invalid argument.\n".toList ∧
    ∀ r : appargs_t, parse_arguments posixly_correct args ≠ .request r := by
  have hmain : parse_arguments posixly_correct args
      = .exit 1 "Error: Invalid argument.\n".toList := by
    simp only [parse_arguments, hscan, parse_positional, hlist, hinfo]
    simp only [Bool.false_eq_true, if_false]
    cases nums with
    | nil => simp at hbad
    | cons first more =>
      simp only
      cases hs : stoi first with
      | none => rfl
      | some val =>
        simp only
        by_cases hneg : val < 0
        · simp [hneg]
        · simp only [hneg, if_false]
          rcases List.mem_cons.1 hbad with h1 | h1
          · subst h1
            rcases hval with h2 | ⟨v, h2, h3⟩
            · rw [h2] at hs; exact Option.noConfusion hs
            · rw [h2] at hs
              have : v = val := Option.some.inj hs
              omega
          · rw [parse_colors_bad bad hval more _ h1]
  refine ⟨hmain, ?_⟩
  intro r hr
  rw [hmain] at hr
  exact parse_result.noConfusion hr

/-- Witness of the amended C8: `led0 5 x7`. -/
theorem parse_arguments_rejects_bad_number_witness :
    parse_arguments false ["led0".toList, "5".toList, "x7".toList]
      = .exit 1 "Error: Invalid argument.\n".toList :=
  (parse_arguments_rejects_bad_number false ["led0".toList, "5".toList, "x7".toList]
    appargs_t.init "led0".toList ["5".toList, "x7".toList] "x7".toList
    (by decide) (by decide) (by decide) (by decide) (Or.inl (by decide))).1

/-- C9: the short form `-t NAME` is accepted and gives a request whose trigger is `NAME`, but
the long form `--trigger=NAME` is not: the table declares `trigger` with `no_argument`, so
`getopt_long` reports the argument as an error and the parser exits with status 1, whatever
`NAME` is and whatever follows. -/
theorem trigger_option_long_form_rejected (posixly_correct : Bool) :
    (∀ NAME : List Char,
      parse_arguments posixly_correct ["-t".toList, NAME, "led0".toList]
        = .request { appargs_t.init with led_name := "led0".toList, trigger := NAME }) ∧
    (∀ (NAME : List Char) (rest : List (List Char)),
      parse_arguments posixly_correct (("--trigger=".toList ++ NAME) :: rest)
        = .exit 1 "Use option -h for help.\n".toList) ∧
    parse_arguments posixly_correct ["--trigger=timer".toList, "led0".toList]
      = .exit 1 "Use option -h for help.\n".toList := by
  have hlong : ∀ (NAME : List Char) (rest : List (List Char)),
      parse_arguments posixly_correct (("--trigger=".toList ++ NAME) :: rest)
        = .exit 1 "Use option -h for help.\n".toList := by
    intro NAME rest
    have harg : "--trigger=".toList ++ NAME
        = '-' :: '-' :: 't' :: 'r' :: 'i' :: 'g' :: 'g' :: 'e' :: 'r' :: '=' :: NAME := rfl
    have hfind : long_option_find "trigger".toList = some ("trigger".toList, false, 't') := by
      decide
    have hopt : getopt_long_option ('t' :: 'r' :: 'i' :: 'g' :: 'g' :: 'e' :: 'r' :: '=' :: NAME)
        = ('?', none) := by
      have h1 : ('t' :: 'r' :: 'i' :: 'g' :: 'g' :: 'e' :: 'r' :: '=' :: NAME).takeWhile
          (fun c => c != '=') = "trigger".toList := rfl
      have h2 : ('t' :: 'r' :: 'i' :: 'g' :: 'g' :: 'e' :: 'r' :: '=' :: NAME).dropWhile
          (fun c => c != '=') = '=' :: NAME := rfl
      simp only [getopt_long_option, h1, h2, hfind]
      rfl
    have hne : ¬ ('-' :: '-' :: 't' :: 'r' :: 'i' :: 'g' :: 'g' :: 'e' :: 'r' :: '=' :: NAME
        = "--".toList) := by
      intro h
      have := congrArg List.length h
      simp at this
    rw [harg]
    simp only [parse_arguments, scan_options, hne, if_false, List.head?_cons, List.length_cons,
      List.drop_succ_cons, List.drop_zero, hopt]
    have hsw : ∀ o : appargs_t, switch_option '?' none o
        = .exit 1 "Use option -h for help.\n".toList := fun o => by
      simp [switch_option]
    simp [hsw]
  refine ⟨?_, hlong, hlong "timer".toList ["led0".toList]⟩
  intro NAME
  have hcl : scan_cluster ['t'] appargs_t.init = .need_arg 't' appargs_t.init := by decide
  have ht : ¬ ("-t".toList = "--".toList) := by decide
  have hl : ¬ ("led0".toList = "--".toList) := by decide
  have h1 : scan_options posixly_correct ["-t".toList, NAME, "led0".toList] [] appargs_t.init
      = .done { appargs_t.init with trigger := NAME } ["led0".toList] := by
    have hd : List.drop 1 "-t".toList = ['t'] := rfl
    have hh : ("-t".toList).head? = some '-' ∧ ("-t".toList).length ≥ 2 := by decide
    have hh2 : ¬ ((['t'] : List Char).head? = some '-') := by decide
    have hh3 : ¬ (("led0".toList).head? = some '-' ∧ ("led0".toList).length ≥ 2) := by decide
    have hsw : switch_option 't' (some NAME) appargs_t.init
        = .next { appargs_t.init with trigger := NAME } := by
      simp [switch_option]
    rw [scan_options, if_neg ht, if_pos hh, hd, if_neg hh2, hcl]
    simp only [hsw]
    rw [scan_options, if_neg hl, if_neg hh3]
    cases posixly_correct <;> simp [scan_options]
  simp only [parse_arguments, h1]
  simp [parse_positional, appargs_t.init]

/-! ## The list view -/

theorem add_field_width (str : List Char) (max_len : Nat) (column : List (List Char))
    (hstr : str.length < 2147483648) (h : is_width max_len column) :
    is_width (add_field str max_len column).1 (add_field str max_len column).2 := by
  obtain ⟨hle, x, hx, hxl⟩ := h
  have hmod : str.length % 4294967296 = str.length := Nat.mod_eq_of_lt (by omega)
  simp only [add_field, hmod]
  by_cases hgt : str.length > max_len
  · simp only [hgt, if_true]
    refine ⟨?_, str, by simp, rfl⟩
    intro y hy
    rcases List.mem_append.1 hy with h1 | h1
    · have := hle y h1; omega
    · simp only [List.mem_singleton] at h1; rw [h1]
  · simp only [hgt, if_false]
    refine ⟨?_, x, by simp [hx], hxl⟩
    intro y hy
    rcases List.mem_append.1 hy with h1 | h1
    · exact hle y h1
    · simp only [List.mem_singleton] at h1; rw [h1]; omega

/-- Where the text is no longer than the column and the column is narrower than `2^31`,
`show_field` writes the text and pads it with spaces to the width of the column. -/
theorem show_field_eq_pad_right (str : List Char) (col_size : Nat)
    (hle : str.length ≤ col_size) (hcol : col_size < 2147483648) :
    show_field str col_size false = pad_right col_size str ∧
      (pad_right col_size str).length = col_size := by
  have hn : num_spaces str col_size = ((col_size - str.length : Nat) : Int) := by
    simp only [num_spaces]
    have h1 : str.length % 18446744073709551616 = str.length := Nat.mod_eq_of_lt (by omega)
    have h2 : (col_size + 18446744073709551616 - str.length) % 18446744073709551616
        = col_size - str.length := by omega
    have h3 : (col_size - str.length) % 4294967296 = col_size - str.length :=
      Nat.mod_eq_of_lt (by omega)
    rw [h1, h2, h3]
    have h4 : col_size - str.length < 2147483648 := by omega
    simp [h4]
  constructor
  · simp [show_field, pad_right, hn]
  · simp only [pad_right, List.length_append, List.length_replicate]
    omega

/-- The columns and widths of the table behind one more device. -/
theorem list_leds_row_fields (t : led_table) (l : led) (d : led_dir) :
    (list_leds_row t l d).led_names = t.led_names ++ [l.led_name] ∧
    (list_leds_row t l d).len_led_name = (add_field l.led_name t.len_led_name t.led_names).1 ∧
    (list_leds_row t l d).br_txt = t.br_txt ++ [brightness_text d] ∧
    (list_leds_row t l d).len_br_txt = (add_field (brightness_text d) t.len_br_txt t.br_txt).1 ∧
    (list_leds_row t l d).trigger_names = t.trigger_names ++
      [if (trigger d.trigger.input).isEmpty then "-".toList else trigger d.trigger.input] ∧
    (list_leds_row t l d).len_trigger_names =
      (add_field (if (trigger d.trigger.input).isEmpty then "-".toList
        else trigger d.trigger.input) t.len_trigger_names t.trigger_names).1 ∧
    (list_leds_row t l d).num_lines = t.num_lines + 1 ∧
    (∃ txt, (list_leds_row t l d).colors = t.colors ++ [txt]) := by
  simp only [list_leds_row]
  split_ifs <;> simp [add_field]

theorem short_texts_append (column : List (List Char)) (str : List Char)
    (h : short_texts (column ++ [str])) : short_texts column ∧ str.length < 2147483648 :=
  ⟨fun x hx => h x (by simp [hx]), h str (by simp)⟩

theorem table_inv_header : table_inv list_leds_header := by
  refine ⟨rfl, rfl, rfl, rfl, ?_, ?_, ?_, ?_⟩
  · decide
  · intro _; exact ⟨by decide, "NAME".toList, by decide, by decide⟩
  · intro _; exact ⟨by decide, "CUR/MAX".toList, by decide, by decide⟩
  · intro _; exact ⟨by decide, "TRIGGER".toList, by decide, by decide⟩

theorem table_inv_row (t : led_table) (l : led) (d : led_dir) (h : table_inv t) :
    table_inv (list_leds_row t l d) := by
  obtain ⟨h1, h2, h3, h4, h5, h6, h7, h8⟩ := h
  obtain ⟨e1, e2, e3, e4, e5, e6, e7, txt, e8⟩ := list_leds_row_fields t l d
  refine ⟨?_, ?_, ?_, ?_, ?_, ?_, ?_, ?_⟩
  · rw [e1, e7]; simp [h1]
  · rw [e3, e7]; simp [h2]
  · rw [e5, e7]; simp [h3]
  · rw [e8, e7]; simp [h4]
  · rw [e5]
    intro str hstr
    rcases List.mem_append.1 hstr with hs | hs
    · exact h5 str hs
    · simp only [List.mem_singleton] at hs
      rw [hs]
      split_ifs with hemp
      · decide
      · intro h0; rw [h0] at hemp; exact hemp rfl
  · rw [e1, e2]
    intro hs
    obtain ⟨hs1, hs2⟩ := short_texts_append _ _ hs
    exact add_field_width _ _ _ hs2 (h6 hs1)
  · rw [e3, e4]
    intro hs
    obtain ⟨hs1, hs2⟩ := short_texts_append _ _ hs
    exact add_field_width _ _ _ hs2 (h7 hs1)
  · rw [e5, e6]
    intro hs
    obtain ⟨hs1, hs2⟩ := short_texts_append _ _ hs
    exact add_field_width _ _ _ hs2 (h8 hs1)

theorem table_inv_collect (fs : sysfs) (names : List (List Char)) :
    ∀ t t1 : led_table, table_inv t → list_leds_collect fs names t = .ok t1 → table_inv t1 := by
  induction names with
  | nil =>
    intro t t1 h hc
    simp only [list_leds_collect] at hc
    rw [← Except.ok.inj hc]; exact h
  | cons name names ih =>
    intro t t1 h hc
    simp only [list_leds_collect] at hc
    cases hl : led.led fs name with
    | error e => rw [hl] at hc; exact Except.noConfusion hc
    | ok l =>
      rw [hl] at hc
      cases hd : fs.lookup name with
      | none => rw [hd] at hc; exact Except.noConfusion hc
      | some d =>
        rw [hd] at hc
        exact ih _ _ (table_inv_row t l d h) hc

/-! ## The listing completes -/

theorem colors_loop_not_good (fuel : Nat) (s : ifstream) (colors : List (List Char))
    (errnum : Nat) (h : s.good = false) : colors_loop fuel s colors errnum = .ok colors := by
  cases fuel <;> simp [colors_loop, h]

/-- The constructor's loop over `multi_index` never throws in this model and delivers the
tokens of the file in their order. -/
theorem colors_loop_eq (fuel : Nat) :
    ∀ (cs : List Char) (colors : List (List Char)) (errnum : Nat), cs.length < fuel →
      colors_loop fuel ⟨cs, false, false⟩ colors errnum = .ok (colors ++ tokens cs) := by
  induction fuel with
  | zero => intro cs colors errnum h; omega
  | succ fuel ih =>
    intro cs colors errnum hlen
    rcases extract_string_good cs [] with ⟨ht, he⟩ | ⟨w, rest, hw, ht, hlt, he⟩
    · rw [ht]
      simp only [colors_loop, ifstream.good, he, ifstream.fail, ifstream.eof]
      simp [colors_loop_not_good, ifstream.good]
    · rw [ht]
      simp only [colors_loop, ifstream.good, he, ifstream.fail]
      simp only [Bool.not_false, Bool.and_self, if_true]
      cases rest with
      | nil => simp [colors_loop_not_good, ifstream.good, tokens_nil]
      | cons c r =>
        have := ih (c :: r) (colors ++ [w]) errnum (by omega)
        simpa using this

/-- Constructing a handle for a bare name with an existing device directory succeeds, keeps
the name, and takes the colour names from the tokens of `multi_index`. -/
theorem led_of_bare_name (fs : sysfs) (name : List Char) (d : led_dir)
    (hne : name ≠ []) (hbare : '/' ∉ name) (hd : fs.lookup name = some d) :
    ∃ l : led, led.led fs name = .ok l ∧ l.led_name = name := by
  have hp : parent_path name = [] := by
    by_contra h
    exact hbare ((parent_path_ne_nil_iff name).1 h)
  simp only [led.led, hp, hd]
  have h1 : name.isEmpty = false := by
    cases name with
    | nil => exact absurd rfl hne
    | cons a b => rfl
  simp only [h1, Bool.false_eq_true, if_false, List.isEmpty_nil, beq_self_eq_true,
    Bool.true_eq_false]
  cases hm : d.multi_index with
  | none => exact ⟨_, rfl, rfl⟩
  | some f =>
    simp only
    cases hr : f.readable with
    | false =>
      simp [attr_file.input, hr, ifstream.ofFile, colors_loop_not_good, ifstream.good]
    | true =>
      simp only [attr_file.input, hr, if_true, ifstream.ofFile]
      rw [colors_loop_eq _ f.data [] fs.errno (by omega)]
      exact ⟨_, rfl, rfl⟩

theorem mem_led_names_foldl (names : List (List Char)) :
    ∀ (acc : List (List Char)) (n : List Char),
      n ∈ names.foldl
        (fun names name => if name.isEmpty == false then set_emplace name names else names) acc →
      n ∈ acc ∨ (n ∈ names ∧ n ≠ []) := by
  induction names with
  | nil => intro acc n h; left; simpa using h
  | cons a rest ih =>
    intro acc n h
    simp only [List.foldl_cons] at h
    rcases ih _ n h with h1 | ⟨h1, h2⟩
    · by_cases ha : a.isEmpty = false
      · simp only [ha, beq_self_eq_true, if_true] at h1
        rcases (mem_set_emplace n a acc).1 h1 with h3 | h3
        · right
          refine ⟨by simp [h3], ?_⟩
          intro h0; rw [h3] at h0; rw [h0] at ha; simp at ha
        · left; exact h3
      · simp only [ha, Bool.not_eq_false] at h1
        simp only [Bool.true_eq_false, beq_iff_eq] at h1
        have : a.isEmpty = true := by simpa using ha
        simp only [this, Bool.true_eq_false, if_false] at h1
        left; exact h1
    · right; exact ⟨by simp [h1], h2⟩

theorem mem_led_names (fs : sysfs) (n : List Char) (h : n ∈ led_names fs) :
    n ∈ fs.names ∧ n ≠ [] := by
  rcases mem_led_names_foldl fs.names [] n h with h1 | h1
  · simp at h1
  · exact h1

theorem list_leds_collect_ok (fs : sysfs) (names : List (List Char)) :
    ∀ t : led_table,
      (∀ n ∈ names, n ≠ [] ∧ '/' ∉ n ∧ (fs.lookup n).isSome = true) →
      ∃ t1, list_leds_collect fs names t = .ok t1 := by
  induction names with
  | nil => intro t _; exact ⟨t, rfl⟩
  | cons name names ih =>
    intro t h
    obtain ⟨hne, hbare, hsome⟩ := h name (by simp)
    obtain ⟨d, hd⟩ := Option.isSome_iff_exists.1 hsome
    obtain ⟨l, hl, _⟩ := led_of_bare_name fs name d hne hbare hd
    simp only [list_leds_collect, hl, hd]
    exact ih _ (fun n hn => h n (by simp [hn]))

/-! ## The texts of the table are short -/

theorem to_string_loop_length (k : Nat) :
    ∀ (fuel n : Nat) (acc : List Char), n < 10 ^ (k + 1) →
      (to_string_loop fuel n acc).length ≤ acc.length + (k + 1) := by
  induction k with
  | zero =>
    intro fuel n acc hn
    cases fuel with
    | zero => simp [to_string_loop]
    | succ fuel =>
      have h0 : n / 10 = 0 := by omega
      simp [to_string_loop, h0]
  | succ k ih =>
    intro fuel n acc hn
    cases fuel with
    | zero => simp only [to_string_loop]; omega
    | succ fuel =>
      simp only [to_string_loop]
      split_ifs with h0
      · simp only [List.length_cons]; omega
      · have hlt : n / 10 < 10 ^ (k + 1) := by
          rw [Nat.div_lt_iff_lt_mul (by decide)]
          rw [pow_succ] at hn
          exact hn
        have := ih fuel (n / 10) (Char.ofNat (48 + n % 10) :: acc) hlt
        simp only [List.length_cons] at this
        omega

theorem to_string_length_le (n : Nat) (hn : n ≤ 2147483647) : (to_string n).length ≤ 10 := by
  have := to_string_loop_length 9 (n + 1) n [] (by norm_num; omega)
  simpa [to_string] using this

theorem brightness_text_length (d : led_dir) : (brightness_text d).length ≤ 21 := by
  have hb : (brightness d).toNat ≤ 2147483647 := by
    have := get_value_le_INT_MAX d.brightness
    simp only [ifstream.INT_MAX] at this
    simp only [brightness]
    omega
  have hm : (max_brightness d).toNat ≤ 2147483647 := by
    have := get_value_le_INT_MAX d.max_brightness
    simp only [ifstream.INT_MAX] at this
    simp only [max_brightness]
    omega
  have h1 := to_string_length_le _ hb
  have h2 := to_string_length_le _ hm
  have h3 : ("-".toList).length = 1 := rfl
  simp only [brightness_text]
  split_ifs <;> simp only [List.length_append, List.length_singleton] <;> omega

theorem tokens_length_le (n : Nat) :
    ∀ cs : List Char, cs.length ≤ n → ∀ t ∈ tokens cs, t.length ≤ cs.length := by
  induction n with
  | zero =>
    intro cs h t ht
    have : cs = [] := List.length_eq_zero.1 (by omega)
    rw [this, tokens_nil] at ht
    simp at ht
  | succ n ih =>
    intro cs h t ht
    rcases token_decomp cs with ⟨_, h0⟩ | ⟨w, rest, _, hd, _, _, htok, hlt⟩
    · rw [h0] at ht; simp at ht
    · have hlen : w.length + rest.length ≤ cs.length := by
        have := length_dropWhile_le isspace cs
        rw [hd, List.length_append] at this
        exact this
      rw [htok] at ht
      rcases List.mem_cons.1 ht with h1 | h1
      · rw [h1]; omega
      · have := ih rest (by omega) t h1
        omega

theorem active_entry_length_le (n : Nat) (ts : List (List Char))
    (h : ∀ t ∈ ts, t.length ≤ n) : (active_entry ts).length ≤ n := by
  induction ts with
  | nil => simp [active_entry]
  | cons t ts ih =>
    simp only [active_entry]
    cases hb : bracket_name t with
    | none => exact ih (fun u hu => h u (by simp [hu]))
    | some x =>
      obtain ⟨_, ht⟩ := (bracket_name_eq_some_iff t x).1 hb
      have := h t (by simp)
      rw [ht] at this
      simp only [List.length_cons, List.length_append, List.length_singleton] at this
      simp only
      omega

theorem trigger_length_le (file : attr_file) :
    (trigger file.input).length ≤ file.data.length := by
  cases hr : file.readable with
  | false => simp [attr_file.input, hr, trigger, ifstream.ofFile, trigger_loop, ifstream.good]
  | true =>
    simp only [attr_file.input, hr, if_true]
    rw [trigger_eq_active_entry]
    exact active_entry_length_le _ _ (tokens_length_le _ _ (le_refl _))

/-- A successful constructor keeps the name it was given. -/
theorem led_name_of_ok (fs : sysfs) (name : List Char) (l : led)
    (h : led.led fs name = .ok l) : l.led_name = name := by
  simp only [led.led] at h
  by_cases h1 : name.isEmpty = true
  · rw [if_pos h1] at h; exact Except.noConfusion h
  · rw [if_neg h1] at h
    by_cases h2 : ((parent_path name).isEmpty == false) = true
    · rw [if_pos h2] at h; exact Except.noConfusion h
    · rw [if_neg h2] at h
      cases hd : fs.lookup name with
      | none => rw [hd] at h; exact Except.noConfusion h
      | some d =>
        rw [hd] at h
        simp only at h
        cases hm : d.multi_index with
        | none =>
          rw [hm] at h
          simp only at h
          rw [← Except.ok.inj h]
        | some f =>
          rw [hm] at h
          simp only at h
          cases hc : colors_loop ((ifstream.ofFile f.input).buf.length + 1)
              (ifstream.ofFile f.input) [] fs.errno with
          | error e => rw [hc] at h; exact Except.noConfusion h
          | ok colors =>
            rw [hc] at h
            simp only at h
            rw [← Except.ok.inj h]

theorem short_texts_concat (column : List (List Char)) (str : List Char)
    (h : short_texts column) (hs : str.length < 2147483648) : short_texts (column ++ [str]) := by
  intro x hx
  rcases List.mem_append.1 hx with h1 | h1
  · exact h x h1
  · simp only [List.mem_singleton] at h1; rw [h1]; exact hs

/-- The three padded columns hold short texts when the names and the trigger files of the
devices are short. -/
theorem list_leds_collect_short (fs : sysfs) (names : List (List Char)) :
    ∀ t t1 : led_table,
      (∀ n ∈ names, n.length < 2147483648 ∧
        ∀ d, fs.lookup n = some d → d.trigger.data.length < 2147483648) →
      short_texts t.led_names ∧ short_texts t.br_txt ∧ short_texts t.trigger_names →
      list_leds_collect fs names t = .ok t1 →
      short_texts t1.led_names ∧ short_texts t1.br_txt ∧ short_texts t1.trigger_names := by
  induction names with
  | nil =>
    intro t t1 _ h hc
    simp only [list_leds_collect] at hc
    rw [← Except.ok.inj hc]; exact h
  | cons name names ih =>
    intro t t1 hn h hc
    simp only [list_leds_collect] at hc
    cases hl : led.led fs name with
    | error e => rw [hl] at hc; exact Except.noConfusion hc
    | ok l =>
      rw [hl] at hc
      cases hd : fs.lookup name with
      | none => rw [hd] at hc; exact Except.noConfusion hc
      | some d =>
        rw [hd] at hc
        obtain ⟨hname, hfile⟩ := hn name (by simp)
        have hfile1 := hfile d hd
        obtain ⟨e1, _, e3, _, e5, _, _, _⟩ := list_leds_row_fields t l d
        refine ih _ _ (fun n hmem => hn n (by simp [hmem])) ?_ hc
        refine ⟨?_, ?_, ?_⟩
        · rw [e1]
          exact short_texts_concat _ _ h.1 (by rw [led_name_of_ok fs name l hl]; exact hname)
        · rw [e3]
          have := brightness_text_length d
          exact short_texts_concat _ _ h.2.1 (by omega)
        · rw [e5]
          apply short_texts_concat _ _ h.2.2
          have := trigger_length_le d.trigger
          split_ifs
          · decide
          · omega

theorem getD_mem_of_lt (column : List (List Char)) (i : Nat) (h : i < column.length) :
    column.getD i [] ∈ column := by
  rw [List.getD_eq_getElem column [] h]
  exact List.getElem_mem h

theorem is_width_lt (width : Nat) (column : List (List Char)) (h : is_width width column)
    (hs : short_texts column) : width < 2147483648 := by
  obtain ⟨_, x, hx, hxl⟩ := h
  have := hs x hx
  omega

theorem active_entry_mem (ts : List (List Char)) (h : active_entry ts ≠ []) :
    ∃ t ∈ ts, bracket_name t = some (active_entry ts) := by
  induction ts with
  | nil => simp [active_entry] at h
  | cons t ts ih =>
    cases hb : bracket_name t with
    | none =>
      simp only [active_entry, hb] at h ⊢
      obtain ⟨u, hu, hbu⟩ := ih h
      exact ⟨u, by simp [hu], hbu⟩
    | some x =>
      simp only [active_entry, hb]
      exact ⟨t, by simp, hb⟩

theorem info_triggers_extends (tty : Bool) (active : List Char) (names : List (List Char)) :
    ∀ (i : Nat) (out : List Char), out <+: info_triggers tty active names i out := by
  induction names with
  | nil => intro i out; simp [info_triggers]
  | cons name rest ih =>
    intro i out
    simp only [info_triggers]
    refine List.IsPrefix.trans ?_ (ih _ _)
    by_cases hi : i = 0
    · simp only [ne_eq, hi, not_true_eq_false, if_false]
      by_cases ha : name = active
      · rw [if_pos ha]
        simp only [List.append_assoc]
        exact List.prefix_append out _
      · rw [if_neg ha]
        exact List.prefix_append out _
    · simp only [ne_eq, hi, not_false_eq_true, if_true]
      by_cases ha : name = active
      · rw [if_pos ha]
        simp only [List.append_assoc]
        exact List.prefix_append out _
      · rw [if_neg ha]
        simp only [List.append_assoc]
        exact List.prefix_append out _

theorem info_triggers_highlights (tty : Bool) (active : List Char) (names : List (List Char)) :
    ∀ (i : Nat) (out : List Char), active ∈ names →
      ∃ pre post, info_triggers tty active names i out
        = pre ++ (['['] ++ fn_bold tty ++ active ++ fn_normal tty ++ [']']) ++ post := by
  induction names with
  | nil => intro i out h; simp at h
  | cons name rest ih =>
    intro i out h
    simp only [info_triggers]
    by_cases ha : name = active
    · obtain ⟨more, hm⟩ := info_triggers_extends tty active rest (i + 1)
        ((if i ≠ 0 then out ++ [' '] else out) ++ ['['] ++ fn_bold tty ++ active ++
          fn_normal tty ++ [']'])
      rw [if_pos ha, ha, ← hm]
      exact ⟨if i ≠ 0 then out ++ [' '] else out, more, by simp only [List.append_assoc]⟩
    · have hr : active ∈ rest := by
        rcases List.mem_cons.1 h with h1 | h1
        · exact absurd h1.symm ha
        · exact h1
      rw [if_neg ha]
      exact ih _ _ hr

/-- C15: for every state of the trigger attribute, a non-empty name returned by `trigger()`
is a member of `triggers()` computed from the same content, and the trigger line of the info
view then holds that name highlighted between square brackets. -/
theorem trigger_mem_triggers (tty : Bool) (file : Option (List Char))
    (h : trigger file ≠ []) :
    trigger file ∈ triggers file ∧
    ∃ pre post, info_triggers tty (trigger file) (triggers file) 0 []
      = pre ++ (['['] ++ fn_bold tty ++ trigger file ++ fn_normal tty ++ [']']) ++ post := by
  have hmem : trigger file ∈ triggers file := by
    cases file with
    | none => exact absurd (by simp [trigger, ifstream.ofFile, trigger_loop, ifstream.good]) h
    | some content =>
      rw [trigger_eq_active_entry] at h ⊢
      obtain ⟨t, ht, hb⟩ := active_entry_mem _ h
      rw [mem_triggers]
      exact ⟨t, ht, by simp [unwrap_token, hb]⟩
  exact ⟨hmem, info_triggers_highlights tty _ _ 0 [] hmem⟩

/-- Witness of C15: the content `none [timer] heartbeat`. -/
theorem trigger_mem_triggers_witness :
    trigger (some "none [timer] heartbeat".toList)
      ∈ triggers (some "none [timer] heartbeat".toList) :=
  (trigger_mem_triggers false (some "none [timer] heartbeat".toList) (by decide)).1

/-! ## The status line -/

theorem status_colors_eq_none_iff (names : List (List Char)) (cvalue : List Nat) :
    ∀ (i : Nat) (out : List Char), i ≤ cvalue.length →
      (status_colors names cvalue i out = none ↔ cvalue.length < i + names.length) := by
  induction names with
  | nil => intro i out hi; simp [status_colors]; omega
  | cons name rest ih =>
    intro i out hi
    simp only [status_colors, List.length_cons]
    cases hv : cvalue[i]? with
    | none =>
      have := List.getElem?_eq_none_iff.1 hv
      simp only [true_iff]
      omega
    | some value =>
      have hlt : i < cvalue.length := by
        by_contra hn
        have := List.getElem?_eq_none_iff.2 (not_lt.1 hn)
        rw [this] at hv
        exact Option.noConfusion hv
      simp only
      rw [ih (i + 1) _ (by omega)]
      omega

/-- C14: the status line of a multicolour device reads `cvalue[i]` behind the end of the
vector returned by `color_intensity()` whenever that vector is shorter than the list of
colour names, so the out-of-range read is reachable: with three names in `multi_index` and
the two values `255 0` in `multi_intensity`, the run of `led led0` reaches it. -/
theorem status_line_reads_past_intensities :
    (∀ (l : led) (d : led_dir) (opt : appargs_t) (errnum : Nat),
      opt.brightness < 0 → opt.colors = [] → opt.trigger = [] →
      (color_intensity l.colors d).length < l.colors.length →
      (main_led l d opt errnum).1.stop = .undefined) ∧
    led.led fs_rgb_short "led0".toList
      = .ok ⟨"led0".toList, ["red".toList, "green".toList, "blue".toList]⟩ ∧
    (fs_rgb_short.lookup "led0".toList).map
      (color_intensity ["red".toList, "green".toList, "blue".toList]) = some [255, 0] ∧
    (∀ (tty : Bool) (what : Nat → List Char),
      (main_request tty what fs_rgb_short { appargs_t.init with led_name := "led0".toList }).1.stop
        = .undefined) := by
  refine ⟨?_, rfl, rfl, ?_⟩
  · intro l d opt errnum hb hc ht hlen
    have hne : l.colors.isEmpty = false := by
      cases hl : l.colors with
      | nil => rw [hl] at hlen; simp at hlen
      | cons a b => rfl
    have hnone : ∀ out, status_colors l.colors (color_intensity l.colors d) 0 out = none :=
      fun out => (status_colors_eq_none_iff _ _ 0 out (by omega)).2 (by omega)
    simp [main_led, hb, hc, ht, hne, hnone]
  · intro tty what
    rfl

/-! ## The header row of the list view -/

/-- C11: with the single device `led0` whose active trigger is `heartbeat` and which has no
colours, the TRIGGER column is 9 wide, no colour column is printed, and the header row is
written with `TRIGGER` padded: it ends with two spaces. -/
theorem list_view_header_ends_with_spaces :
    list_leds fs_heartbeat
      = .ok ["NAME CUR/MAX TRIGGER  \n".toList, "led0 0/255   heartbeat\n".toList] ∧
    [' ', ' ', '\n'] <:+ "NAME CUR/MAX TRIGGER  \n".toList := by
  refine ⟨rfl, ?_⟩
  decide

/-! ## The info view with a wrong number of colour values -/

/-- C12, as worded, fails in its last part: for the multicolour device `led0` with three
colour names and two intensity values, the info view prints the error and exits with status
1, but by then it has written the first part of the report to standard output. -/
theorem info_view_writes_before_error :
    (main_request false (fun _ => []) fs_rgb_short
      { appargs_t.init with led_name := "led0".toList, show_info := true }).1
      = { out := "Name          : led0\n".toList ++ "Location      : /sys/class/leds/led0\n".toList
            ++ "Brightness    :   7\n".toList ++ "Max brightness: 255\n".toList
            ++ "Multicolor    : Yes\n".toList ++ "Color values  : ".toList,
          err := "Error getting color values.\n".toList, stop := .exit 1 } ∧
    (main_request false (fun _ => []) fs_rgb_short
      { appargs_t.init with led_name := "led0".toList, show_info := true }).1.out ≠ [] := by
  refine ⟨rfl, ?_⟩
  decide

/-- C12, amended: for every multicolour device whose number of channel names differs from
the number of intensity values read, the info view prints `Error getting color values.` on
standard error and exits with status 1; standard output then holds the report up to and
including the label `Color values  : ` (the lines for name, location, brightness, maximum
brightness and `Multicolor    : Yes`), and neither the colour values nor the line of the
triggers. -/
theorem info_view_color_count_mismatch (tty : Bool) (what : Nat → List Char) (fs : sysfs)
    (opt : appargs_t) (l : led) (d : led_dir)
    (hlist : opt.list = false) (hinfo : opt.show_info = true)
    (hl : led.led fs opt.led_name = .ok l) (hd : fs.lookup opt.led_name = some d)
    (hmulti : l.colors ≠ [])
    (hlen : l.colors.length ≠ (color_intensity l.colors d).length) :
    (main_request tty what fs opt).1
      = { out := info_head l d ++ "Yes\n".toList ++ "Color values  : ".toList,
          err := "Error getting color values.\n".toList, stop := .exit 1 } ∧
    info_head l d =
      "Name          : ".toList ++ l.led_name ++ ['\n'] ++
      "Location      : /sys/class/leds/".toList ++ l.led_name ++ ['\n'] ++
      "Brightness    : ".toList ++
        setw_text (to_string_int (max_brightness d)).length (to_string_int (brightness d)) ++
        ['\n'] ++
      "Max brightness: ".toList ++ to_string_int (max_brightness d) ++ ['\n'] ++
      "Multicolor    : ".toList := by
  have hne : l.colors.isEmpty = false := by
    cases hc : l.colors with
    | nil => exact absurd hc hmulti
    | cons a b => rfl
  constructor
  · simp [main_request, main_try, hlist, hinfo, print_led_info, hl, hd, hne, hlen]
  · simp [info_head, List.append_assoc]

/-- Witness of the amended C12: the device `led0` with three colour names and two values. -/
theorem info_view_color_count_mismatch_witness :
    (main_request true (fun _ => []) fs_rgb_short
      { appargs_t.init with led_name := "led0".toList, show_info := true }).1.stop = .exit 1 := by
  rw [(info_view_color_count_mismatch true (fun _ => []) fs_rgb_short
    { appargs_t.init with led_name := "led0".toList, show_info := true }
    ⟨"led0".toList, ["red".toList, "green".toList, "blue".toList]⟩
    ⟨⟨"7\n".toList, true, true⟩, ⟨"255\n".toList, true, false⟩,
      ⟨"255 0\n".toList, true, true⟩, ⟨"[none] timer\n".toList, true, true⟩,
      some ⟨"red green blue\n".toList, true, false⟩⟩
    rfl rfl rfl rfl (by decide) (by decide)).1]

/-! ## The writes of `main` with a wrong number of colour values -/

theorem tokens_no_space (n : Nat) :
    ∀ cs : List Char, cs.length ≤ n → ∀ t ∈ tokens cs, ∀ c ∈ t, ¬ isspace c = true := by
  induction n with
  | zero =>
    intro cs h t ht
    have : cs = [] := List.length_eq_zero.1 (by omega)
    rw [this, tokens_nil] at ht
    simp at ht
  | succ n ih =>
    intro cs h t ht
    rcases token_decomp cs with ⟨_, h0⟩ | ⟨w, rest, _, _, hns, _, htok, hlt⟩
    · rw [h0] at ht; simp at ht
    · rw [htok] at ht
      rcases List.mem_cons.1 ht with h1 | h1
      · rw [h1]; exact hns
      · exact ih rest (by omega) t h1

theorem active_entry_no_space (ts : List (List Char))
    (h : ∀ t ∈ ts, ∀ c ∈ t, ¬ isspace c = true) :
    ∀ c ∈ active_entry ts, ¬ isspace c = true := by
  induction ts with
  | nil => simp [active_entry]
  | cons t ts ih =>
    simp only [active_entry]
    cases hb : bracket_name t with
    | none => exact ih (fun u hu => h u (by simp [hu]))
    | some x =>
      obtain ⟨_, ht⟩ := (bracket_name_eq_some_iff t x).1 hb
      intro c hc
      exact h t (by simp) c (by rw [ht]; simp [hc])

theorem trigger_no_space (file : attr_file) :
    ∀ c ∈ trigger file.input, ¬ isspace c = true := by
  cases hr : file.readable with
  | false => simp [attr_file.input, hr, trigger, ifstream.ofFile, trigger_loop, ifstream.good]
  | true =>
    simp only [attr_file.input, hr, if_true]
    rw [trigger_eq_active_entry]
    exact active_entry_no_space _ (tokens_no_space _ _ (le_refl _))

theorem getLast?_ne_space_of_no_space (str : List Char)
    (h : ∀ c ∈ str, ¬ isspace c = true) : str.getLast? ≠ some ' ' := by
  intro hl
  exact h ' ' (List.mem_of_getLast?_eq_some hl) (by decide)

theorem to_string_getLast? (v : Nat) : (to_string v).getLast? ≠ some ' ' :=
  getLast?_ne_space_of_no_space _
    (fun c hc => not_isspace_of_isdigit c (to_string_isdigit v c hc))

theorem colors_text_ends (names : List (List Char)) :
    ∀ (values : List Nat) (c : Nat) (txt : List Char), names ≠ [] →
      names.length = values.length →
      ∃ (pre : List Char) (v : Nat), colors_text names values c txt = pre ++ to_string v := by
  induction names with
  | nil => intro values c txt h; exact absurd rfl h
  | cons name rest ih =>
    intro values c txt _ hlen
    cases values with
    | nil => simp at hlen
    | cons value values1 =>
      simp only [colors_text]
      cases rest with
      | nil =>
        cases values1 with
        | nil =>
          exact ⟨(if c ≠ 0 then txt ++ [','] else txt) ++ name ++ [':'], value,
            by simp only [colors_text]⟩
        | cons a b => simp at hlen
      | cons name2 rest2 =>
        exact ih values1 (c + 1) _ (by simp) (by simpa using hlen)

theorem colors_text_getLast? (names : List (List Char)) (values : List Nat)
    (h : names ≠ []) (hlen : names.length = values.length) :
    (colors_text names values 0 []).getLast? ≠ some ' ' ∧ colors_text names values 0 [] ≠ [] := by
  obtain ⟨pre, v, hv⟩ := colors_text_ends names values 0 [] h hlen
  rw [hv]
  constructor
  · rw [List.getLast?_append_of_ne_nil _ (to_string_ne_nil v)]
    exact to_string_getLast? v
  · simp [to_string_ne_nil v]

theorem list_leds_row_colors (t : led_table) (l : led) (d : led_dir) :
    ((list_leds_row t l d).colors = t.colors ++ [[]] ∧
      (list_leds_row t l d).has_colors = t.has_colors) ∨
    ((list_leds_row t l d).colors
        = t.colors ++ [colors_text l.colors (color_intensity l.colors d) 0 []] ∧
      (list_leds_row t l d).has_colors = true ∧ l.colors ≠ [] ∧
      l.colors.length = (color_intensity l.colors d).length) := by
  by_cases hc : (l.colors.isEmpty == false) = true ∧
      l.colors.length = (color_intensity l.colors d).length
  · right
    have hne : l.colors ≠ [] := by
      intro h0
      rw [h0] at hc
      simp at hc
    refine ⟨?_, ?_, hne, hc.2⟩
    · simp only [list_leds_row, if_pos hc, add_field]
    · simp only [list_leds_row, if_pos hc]
  · left
    constructor
    · simp only [list_leds_row, if_neg hc, add_field]
    · simp only [list_leds_row, if_neg hc]

theorem table_ends_header : table_ends list_leds_header := by
  refine ⟨?_, ?_, ?_, rfl, rfl⟩
  · decide
  · decide
  · intro str hstr
    have : str ∈ ([] : List (List Char)) := hstr
    simp at this

theorem table_ends_row (t : led_table) (l : led) (d : led_dir) (h : table_ends t) :
    table_ends (list_leds_row t l d) := by
  obtain ⟨h1, h2, h3, h4, h5⟩ := h
  obtain ⟨_, _, _, _, e5, _, _, _⟩ := list_leds_row_fields t l d
  have hcne : t.colors ≠ [] := by
    intro h0; rw [h0] at h5; simp at h5
  have htne : t.trigger_names ≠ [] := by
    intro h0; rw [h0] at h4; simp at h4
  have htrig : ∀ str ∈ (list_leds_row t l d).trigger_names, str.getLast? ≠ some ' ' := by
    rw [e5]
    intro str hstr
    rcases List.mem_append.1 hstr with hs | hs
    · exact h1 str hs
    · simp only [List.mem_singleton] at hs
      rw [hs]
      split_ifs
      · decide
      · exact getLast?_ne_space_of_no_space _ (trigger_no_space d.trigger)
  have hthead : (list_leds_row t l d).trigger_names.head? = some "TRIGGER".toList := by
    rw [e5, List.head?_append_of_ne_nil _ htne]; exact h4
  rcases list_leds_row_colors t l d with ⟨ec, eh⟩ | ⟨ec, eh, hne, hlen⟩
  · refine ⟨htrig, ?_, ?_, hthead, ?_⟩
    · rw [ec]
      intro str hstr
      rcases List.mem_append.1 hstr with hs | hs
      · exact h2 str hs
      · simp only [List.mem_singleton] at hs
        rw [hs]; simp
    · rw [ec, eh, List.tail_append_of_ne_nil hcne]
      intro str hstr hn
      rcases List.mem_append.1 hstr with hs | hs
      · exact h3 str hs hn
      · simp only [List.mem_singleton] at hs
        exact absurd hs hn
    · rw [ec, List.head?_append_of_ne_nil _ hcne]; exact h5
  · refine ⟨htrig, ?_, ?_, hthead, ?_⟩
    · rw [ec]
      intro str hstr
      rcases List.mem_append.1 hstr with hs | hs
      · exact h2 str hs
      · simp only [List.mem_singleton] at hs
        rw [hs]
        exact (colors_text_getLast? _ _ hne hlen).1
    · intro _ _ _; exact eh
    · rw [ec, List.head?_append_of_ne_nil _ hcne]; exact h5

theorem table_ends_collect (fs : sysfs) (names : List (List Char)) :
    ∀ t t1 : led_table, table_ends t → list_leds_collect fs names t = .ok t1 →
      table_ends t1 := by
  induction names with
  | nil =>
    intro t t1 h hc
    simp only [list_leds_collect] at hc
    rw [← Except.ok.inj hc]; exact h
  | cons name names ih =>
    intro t t1 h hc
    simp only [list_leds_collect] at hc
    cases hl : led.led fs name with
    | error e => rw [hl] at hc; exact Except.noConfusion hc
    | ok l =>
      rw [hl] at hc
      cases hd : fs.lookup name with
      | none => rw [hd] at hc; exact Except.noConfusion hc
      | some d =>
        rw [hd] at hc
        exact ih _ _ (table_ends_row t l d h) hc

/-- The text of a line of the list view when the table is well formed and its texts are
short: the NAME and CUR/MAX fields padded, the TRIGGER field padded only before a colour
field. -/
theorem list_leds_line_eq (t : led_table) (hinv : table_inv t)
    (hs1 : short_texts t.led_names) (hs2 : short_texts t.br_txt)
    (hs3 : short_texts t.trigger_names) (i : Nat) (hi : i < t.num_lines) :
    list_leds_line t i =
      pad_right t.len_led_name (t.led_names.getD i []) ++ [' '] ++
      pad_right t.len_br_txt (t.br_txt.getD i []) ++ [' '] ++
      (if (t.colors.getD i []).isEmpty then t.trigger_names.getD i []
        else pad_right t.len_trigger_names (t.trigger_names.getD i [])) ++
      (if t.has_colors then
        (if (t.colors.getD i []).isEmpty == false then [' '] ++ t.colors.getD i [] else [])
      else []) ++ ['\n'] := by
  obtain ⟨h1, h2, h3, _, h5, h6, h7, h8⟩ := hinv
  have w1 := h6 hs1
  have w2 := h7 hs2
  have w3 := h8 hs3
  have m1 : t.led_names.getD i [] ∈ t.led_names := getD_mem_of_lt _ _ (by omega)
  have m2 : t.br_txt.getD i [] ∈ t.br_txt := getD_mem_of_lt _ _ (by omega)
  have m3 : t.trigger_names.getD i [] ∈ t.trigger_names := getD_mem_of_lt _ _ (by omega)
  obtain ⟨p1, _⟩ := show_field_eq_pad_right _ _ (w1.1 _ m1) (is_width_lt _ _ w1 hs1)
  obtain ⟨p2, _⟩ := show_field_eq_pad_right _ _ (w2.1 _ m2) (is_width_lt _ _ w2 hs2)
  obtain ⟨p3, _⟩ := show_field_eq_pad_right _ _ (w3.1 _ m3) (is_width_lt _ _ w3 hs3)
  have hne : (t.trigger_names.getD i []).isEmpty = false := by
    have := h5 _ m3
    cases hx : t.trigger_names.getD i [] with
    | nil => exact absurd hx this
    | cons a b => rfl
  have hlen : t.len_trigger_names ≠ 0 := by
    obtain ⟨_, x, hx, hxl⟩ := w3
    have := h5 x hx
    cases x with
    | nil => exact absurd rfl this
    | cons a b => rw [← hxl]; simp
  simp only [list_leds_line, p1, p2, p3, hne, hlen, ne_eq, not_false_eq_true, if_true,
    beq_self_eq_true, true_or]
  simp only [List.append_assoc]

theorem getD_succ_mem_tail (column : List (List Char)) (i : Nat) (h1 : 1 ≤ i)
    (h : i < column.length) : column.getD i [] ∈ column.tail := by
  cases column with
  | nil => simp at h
  | cons a rest =>
    obtain ⟨j, rfl⟩ : ∃ j, i = j + 1 := ⟨i - 1, by omega⟩
    simp only [List.getD_cons_succ, List.tail_cons]
    exact getD_mem_of_lt rest j (by simpa using h)

theorem getD_zero_of_head? (column : List (List Char)) (str : List Char)
    (h : column.head? = some str) : column.getD 0 [] = str := by
  cases column with
  | nil => simp at h
  | cons a rest =>
    simp only [List.head?_cons, Option.some.injEq] at h
    simp [h]

/-- Where the rows of the list view end: for every set of devices (bare names with a device
directory; names and trigger files shorter than `2^31` characters) no device row ends with a
space before its newline, and the header row ends with a space exactly when no device has
colours and some trigger name is longer than the header `TRIGGER`. -/
theorem list_view_row_ends (fs : sysfs)
    (hfs : ∀ name ∈ fs.names, '/' ∉ name ∧ name.length < 2147483648 ∧
      ∃ d, fs.lookup name = some d ∧ d.trigger.data.length < 2147483648) :
    ∃ t : led_table,
      list_leds_collect fs (led_names fs) list_leds_header = .ok t ∧
      list_leds fs = .ok (list_leds_lines t) ∧
      (∀ i, 1 ≤ i → i < t.num_lines →
        ∃ body, list_leds_line t i = body ++ ['\n'] ∧ body.getLast? ≠ some ' ') ∧
      (∃ body, list_leds_line t 0 = body ++ ['\n'] ∧
        (body.getLast? = some ' ' ↔ t.has_colors = false ∧ 7 < t.len_trigger_names)) := by
  have hok : ∀ n ∈ led_names fs, n ≠ [] ∧ '/' ∉ n ∧ (fs.lookup n).isSome = true := by
    intro n hn
    obtain ⟨hmem, hne⟩ := mem_led_names fs n hn
    obtain ⟨hbare, _, d, hd, _⟩ := hfs n hmem
    exact ⟨hne, hbare, by simp [hd]⟩
  have hsh : ∀ n ∈ led_names fs, n.length < 2147483648 ∧
      ∀ d, fs.lookup n = some d → d.trigger.data.length < 2147483648 := by
    intro n hn
    obtain ⟨hmem, _⟩ := mem_led_names fs n hn
    obtain ⟨_, hlen, d, hd, hfile⟩ := hfs n hmem
    refine ⟨hlen, ?_⟩
    intro d1 hd1
    rw [hd] at hd1
    rw [← Option.some.inj hd1]
    exact hfile
  obtain ⟨t, hcollect⟩ := list_leds_collect_ok fs (led_names fs) list_leds_header hok
  have hshort0 : short_texts list_leds_header.led_names ∧ short_texts list_leds_header.br_txt ∧
      short_texts list_leds_header.trigger_names := by
    refine ⟨?_, ?_, ?_⟩ <;> decide
  obtain ⟨hs1, hs2, hs3⟩ :=
    list_leds_collect_short fs (led_names fs) list_leds_header t hsh hshort0 hcollect
  have hinv := table_inv_collect fs (led_names fs) list_leds_header t table_inv_header hcollect
  obtain ⟨e1, e2, e3, e4, e5⟩ :=
    table_ends_collect fs (led_names fs) list_leds_header t table_ends_header hcollect
  obtain ⟨_, _, h3, h4, h5, _, _, h8⟩ := hinv
  refine ⟨t, hcollect, by simp [list_leds, hcollect], ?_, ?_⟩
  · intro i hi1 hi
    have hline := list_leds_line_eq t
      (table_inv_collect fs (led_names fs) list_leds_header t table_inv_header hcollect)
      hs1 hs2 hs3 i hi
    have m3 : t.trigger_names.getD i [] ∈ t.trigger_names := getD_mem_of_lt _ _ (by omega)
    have mc : t.colors.getD i [] ∈ t.colors := getD_mem_of_lt _ _ (by omega)
    have mct : t.colors.getD i [] ∈ t.colors.tail := getD_succ_mem_tail _ _ hi1 (by omega)
    by_cases hc : t.colors.getD i [] = []
    · refine ⟨pad_right t.len_led_name (t.led_names.getD i []) ++ [' '] ++
        pad_right t.len_br_txt (t.br_txt.getD i []) ++ [' '] ++ t.trigger_names.getD i [],
        ?_, ?_⟩
      · rw [hline, hc]
        simp
      · rw [List.getLast?_append_of_ne_nil _ (h5 _ m3)]
        exact e1 _ m3
    · have hhc : t.has_colors = true := e3 _ mct hc
      have hemp : (t.colors.getD i []).isEmpty = false := by
        cases hx : t.colors.getD i [] with
        | nil => exact absurd hx hc
        | cons a b => rfl
      refine ⟨pad_right t.len_led_name (t.led_names.getD i []) ++ [' '] ++
        pad_right t.len_br_txt (t.br_txt.getD i []) ++ [' '] ++
        pad_right t.len_trigger_names (t.trigger_names.getD i []) ++ [' '] ++
        t.colors.getD i [], ?_, ?_⟩
      · rw [hline, hhc, hemp]
        simp
      · rw [List.getLast?_append_of_ne_nil _ hc]
        exact e2 _ mc
  · have hpos : 0 < t.num_lines := by
      have : t.trigger_names ≠ [] := by
        intro h0; rw [h0] at e4; simp at e4
      have := List.length_pos.2 this
      omega
    have hline := list_leds_line_eq t
      (table_inv_collect fs (led_names fs) list_leds_header t table_inv_header hcollect)
      hs1 hs2 hs3 0 hpos
    have ht0 := getD_zero_of_head? _ _ e4
    have hc0 := getD_zero_of_head? _ _ e5
    have hcemp : ("COLOR:VALUE[,COLOR:VALUE...]".toList).isEmpty = false := rfl
    rw [ht0, hc0, hcemp] at hline
    by_cases hhc : t.has_colors = true
    · refine ⟨pad_right t.len_led_name (t.led_names.getD 0 []) ++ [' '] ++
        pad_right t.len_br_txt (t.br_txt.getD 0 []) ++ [' '] ++
        pad_right t.len_trigger_names "TRIGGER".toList ++ [' '] ++
        "COLOR:VALUE[,COLOR:VALUE...]".toList, ?_, ?_⟩
      · rw [hline, hhc]
        simp
      · rw [List.getLast?_append_of_ne_nil _ (by decide)]
        simp [hhc]
    · have hhf : t.has_colors = false := by simpa using hhc
      refine ⟨pad_right t.len_led_name (t.led_names.getD 0 []) ++ [' '] ++
        pad_right t.len_br_txt (t.br_txt.getD 0 []) ++ [' '] ++
        pad_right t.len_trigger_names "TRIGGER".toList, ?_, ?_⟩
      · rw [hline, hhf]
        simp
      · have hpne : pad_right t.len_trigger_names "TRIGGER".toList ≠ [] := by
          simp [pad_right]
        rw [List.getLast?_append_of_ne_nil _ hpne]
        have hl7 : ("TRIGGER".toList).length = 7 := rfl
        simp only [pad_right, hl7, hhf, true_and]
        by_cases hw : 7 < t.len_trigger_names
        · have hrep : List.replicate (t.len_trigger_names - 7) ' ' ≠ [] := by
            simp; omega
          rw [List.getLast?_append_of_ne_nil _ hrep, List.getLast?_replicate]
          simp [hw]; omega
        · have h0 : t.len_trigger_names - 7 = 0 := by omega
          rw [h0]
          simp only [List.replicate_zero, List.append_nil, hw, iff_false]
          decide

/-! ## The columns of the list view -/

end ledpp
